import Mathlib

/-!
Verification of the multi-phase generation pipeline and differential
refinement engine of the 3d-forge game maker, as a shallow embedding of
`src/services/geminiService.ts`, `src/services/utils/aiHelpers.ts` and
`src/services/promptRegistry.ts` in Lean 4.

Strings are modelled as Lean `String`/`List Char`.  JavaScript string
operations used by the source (`String.prototype.replace` with a string
pattern, `includes`, `indexOf`, `lastIndexOf`, `substring`) are embedded
as executable functions over `List Char`.
-/

/-- Character constants written via code points so that the embedding does
not depend on delicate literal syntax: apostrophe, backquote, left and
right curly brace. -/
def aposC : Char := Char.ofNat 39

/-- Backquote character (code point 96). -/
def backqC : Char := Char.ofNat 96

/-- Left curly brace (code point 123). -/
def lbraceC : Char := Char.ofNat 123

/-- Right curly brace (code point 125). -/
def rbraceC : Char := Char.ofNat 125

/-- Boolean test that the first list is a leading segment of the second.
Mirrors the prefix comparison used when locating a substring. -/
def leadsL : List Char → List Char → Bool
  | [], _ => true
  | _ :: _, [] => false
  | a :: s, b :: l => a = b && leadsL s l

/-- Index of the first occurrence of `pat` in `l`, scanning left to right;
embeds the search done by JavaScript `indexOf`/`includes`/`replace` with a
string pattern (`none` plays the role of `-1`). -/
def firstOccAt (pat : List Char) : List Char → Option Nat
  | [] => if leadsL pat [] then some 0 else none
  | c :: t =>
    if leadsL pat (c :: t) then some 0
    else (firstOccAt pat t).map (fun i => i + 1)

/-- Number of positions of `l` at which `pat` occurs (occurrences may
overlap).  Used only in specifications, not by the embedded code. -/
def countOccurL (pat l : List Char) : Nat :=
  ((List.range (l.length + 1)).filter (fun i => leadsL pat (l.drop i))).length

/-- `true` when `pat` occurs somewhere in `l`; embeds JavaScript
`String.prototype.includes`. -/
def jsIncludesL (l pat : List Char) : Bool := (firstOccAt pat l).isSome

/-- ECMAScript `GetSubstitution` applied to a replacement string for a
string-pattern `replace` call: `$$`, `$&`, a dollar followed by a
backquote, and a dollar followed by an apostrophe are interpreted; with a
string pattern there are no capture groups, so every other sequence is
literal text. -/
def expandRepl (matched before after : List Char) : List Char → List Char
  | [] => []
  | [c] => if c = '$' then ['$'] else [c]
  | c :: d :: rest2 =>
    if c = '$' then
      if d = '$' then '$' :: expandRepl matched before after rest2
      else if d = '&' then matched ++ expandRepl matched before after rest2
      else if d = backqC then before ++ expandRepl matched before after rest2
      else if d = aposC then after ++ expandRepl matched before after rest2
      else c :: d :: expandRepl matched before after rest2
    else c :: expandRepl matched before after (d :: rest2)

/-- JavaScript `h.replace(pat, rep)` with a string pattern: replace the
first occurrence of `pat` by the `GetSubstitution` expansion of `rep`; if
`pat` does not occur the string is returned unchanged. -/
def jsReplaceFirstL (l pat rep : List Char) : List Char :=
  match firstOccAt pat l with
  | none => l
  | some i =>
    l.take i ++ expandRepl pat (l.take i) (l.drop (i + pat.length)) rep
      ++ l.drop (i + pat.length)

/-- String-level wrapper for `jsReplaceFirstL`. -/
def jsReplaceFirst (h pat rep : String) : String :=
  String.mk (jsReplaceFirstL h.data pat.data rep.data)

/-- String-level wrapper for `jsIncludesL`. -/
def jsIncludes (h pat : String) : Bool := jsIncludesL h.data pat.data

/-- String-level occurrence count. -/
def countOccur (pat h : String) : Nat := countOccurL pat.data h.data

/-! ## Data model (from `src/unnamed/part_000`, the repository's type
declarations).  TypeScript enum values are runtime strings, so enum-typed
fields are modelled as `String`; optional fields as `Option`. -/

/-- A node of the architecture block. -/
structure ArchitectureNode where
  name : String
  type : String
  description : String
deriving DecidableEq

/-- The architecture block of a generated game. -/
structure ArchitectureBlock where
  style : String
  description : String
  nodes : List ArchitectureNode
deriving DecidableEq

/-- One tech-stack entry. -/
structure TechStackItem where
  category : String
  name : String
  description : String
  link : Option String
deriving DecidableEq

/-- One prerequisite entry. -/
structure Prerequisite where
  item : String
  command : Option String
  importance : String
deriving DecidableEq

/-- One synthesized sound effect. -/
structure SoundEffect where
  name : String
  trigger : String
  code : String
deriving DecidableEq

/-- The audio bundle produced by the Soundscape phase. -/
structure GameAudio where
  description : String
  backgroundMusic : String
  soundEffects : List SoundEffect
deriving DecidableEq

/-- Content-derived identity and lineage metadata of an artifact. -/
structure ForgeManifest where
  version : String
  timestamp : Nat
  seed : String
  specHash : String
  buildHash : String
  platform : String
  quality : String
  parentHash : Option String
deriving DecidableEq

/-- The aggregate unit passed between phases and returned to the caller. -/
structure GeneratedGame where
  title : String
  summary : String
  html : Option String
  instructions : Option String
  recommendedEngine : String
  language : String
  architecture : ArchitectureBlock
  techStack : List TechStackItem
  prerequisites : List Prerequisite
  audio : Option GameAudio
  manifest : Option ForgeManifest
deriving DecidableEq

/-- One search/replace pair of a patch-mode edit plan. -/
structure Edit where
  search : String
  replace : String
deriving DecidableEq

/-- The parsed refinement response (schema 5 of `geminiService.ts`): an
edit mode, an optional ordered edit list, an optional full replacement
body, and optional updated instructions.  Absent fields are `none`. -/
structure RefineResponse where
  editMode : Option String
  edits : Option (List Edit)
  fullCode : Option String
  instructions : Option String
deriving DecidableEq

/-- JavaScript truthiness of an optional string: `undefined` and the empty
string are falsy. -/
def truthyS : Option String → Bool
  | none => false
  | some s => !(s == "")

/-- `a || b` on optional strings as used for
`result.instructions || currentGame.instructions`. -/
def jsOrOpt (a b : Option String) : Option String :=
  if truthyS a then a else b

/-- Body of the patch loop of `refineGame` for a single edit: the guard
`searchBlock && newHtml.includes(searchBlock)` applies the replacement,
any other case (empty/absent search, or search text not found) leaves the
html unchanged (the edit is skipped). -/
def applyEdit (h : String) (e : Edit) : String :=
  if e.search ≠ "" && jsIncludes h e.search then jsReplaceFirst h e.search e.replace
  else h

/-- The ordered patch loop of `refineGame`. -/
def applyEdits (h : String) (es : List Edit) : String := es.foldl applyEdit h

/-- Shallow embedding of `refineGame` (geminiService.ts, phase 4).  The
provider call and `parseAndSanitize` happen inside one `try` block; their
outcome is the `Except` argument: `.error m` when the provider call or
sanitization threw with message `m`, `.ok r` when a structured response
was obtained.  Any failure is re-thrown as a single error prefixed with
"Refinement Failed: ", and the function is pure in `currentGame` (the
source never assigns to a field of `currentGame`; both return paths build
a fresh object by spreading it). -/
def refineGame (currentGame : GeneratedGame) (res : Except String RefineResponse) :
    Except String GeneratedGame :=
  match res with
  | .error m => .error ("Refinement Failed: " ++ m)
  | .ok result =>
    let newHtml0 := currentGame.html.getD ""
    if result.editMode = some "rewrite" ∧ truthyS result.fullCode then
      .ok { currentGame with
              html := some (result.fullCode.getD ""),
              instructions := jsOrOpt result.instructions currentGame.instructions }
    else
      let newHtml :=
        match result.edits with
        | some es => applyEdits newHtml0 es
        | none => newHtml0
      .ok { currentGame with
              html := some newHtml,
              instructions := jsOrOpt result.instructions currentGame.instructions }

/-- The fixed fallback audio bundle of `generateSoundscape` (the catch
branch of geminiService.ts lines 321-329). -/
def fallbackAudio : GameAudio :=
  { description := "Audio generation failed."
    backgroundMusic := "// No music generated"
    soundEffects := [] }

/-- Shallow embedding of `generateSoundscape`: the provider call and
response parsing happen inside one `try`; on any failure the fixed
fallback bundle is returned instead of propagating the error, so the
function's return type is `GameAudio`, not an `Except` — it cannot fail. -/
def generateSoundscape (res : Except String GameAudio) : GameAudio :=
  match res with
  | .ok a => a
  | .error _ => fallbackAudio

/-! ## JSON values and `JSON.parse` (for `parseAndSanitize` and
`validateStructure` of `src/services/utils/aiHelpers.ts`).

A parsed JSON value.  Numbers keep their raw numeral text: no claim
depends on numeric value identity, and both sides of every comparison in
this development go through the same parser, so the representation
cancels.  Object fields are kept as an association list in source order.
The JavaScript `key in data` test consults the prototype chain: objects
produced by `JSON.parse` inherit from `Object.prototype` and arrays from
`Array.prototype` (then `Object.prototype`), so `"toString" in data` is
true for every object — `jsInData` below models this. -/

/-- A JSON value. -/
inductive Json where
  | null : Json
  | bool : Bool → Json
  | num : String → Json
  | str : String → Json
  | arr : List Json → Json
  | obj : List (String × Json) → Json

/-- JSON whitespace (RFC 8259: space, tab, line feed, carriage return). -/
def isJsonWs (c : Char) : Bool :=
  c = ' ' || c = '\t' || c = '\n' || c = '\r'

/-- Skip leading JSON whitespace. -/
def skipJsonWs : List Char → List Char
  | [] => []
  | c :: t => if isJsonWs c then skipJsonWs t else c :: t

/-- Hexadecimal digit value. -/
def hexVal (c : Char) : Option Nat :=
  if c.isDigit then some (c.toNat - 48)
  else if 'a' ≤ c ∧ c ≤ 'f' then some (c.toNat - 87)
  else if 'A' ≤ c ∧ c ≤ 'F' then some (c.toNat - 55)
  else none

/-- Parse the body of a JSON string after the opening quote, returning the
decoded characters and the rest of the input after the closing quote.
Escapes are decoded as in `JSON.parse`; a `\u` escape becomes the scalar
with that code (surrogate-pair joining of UTF-16 is not modelled: no claim
exercises it).  Raw control characters are rejected. -/
def parseJStrBody : List Char → Option (List Char × List Char)
  | [] => none
  | c :: t =>
    if c = '"' then some ([], t)
    else if c = '\\' then
      match t with
      | [] => none
      | e :: t2 =>
        if e = 'u' then
          match t2 with
          | h1 :: h2 :: h3 :: h4 :: t3 =>
            match hexVal h1, hexVal h2, hexVal h3, hexVal h4 with
            | some a, some b, some c2, some d =>
              (parseJStrBody t3).map
                (fun r => (Char.ofNat (a * 4096 + b * 256 + c2 * 16 + d) :: r.1, r.2))
            | _, _, _, _ => none
          | _ => none
        else
          match
            (if e = '"' then some '"'
             else if e = '\\' then some '\\'
             else if e = '/' then some '/'
             else if e = 'b' then some (Char.ofNat 8)
             else if e = 'f' then some (Char.ofNat 12)
             else if e = 'n' then some '\n'
             else if e = 'r' then some '\r'
             else if e = 't' then some '\t'
             else none) with
          | some ch => (parseJStrBody t2).map (fun r => (ch :: r.1, r.2))
          | none => none
    else if c.toNat < 32 then none
    else (parseJStrBody t).map (fun r => (c :: r.1, r.2))

/-- Parse a JSON number (RFC 8259 grammar: optional minus, `0` or a
nonzero-led digit run, optional fraction, optional exponent), returning
the consumed numeral text and the rest. -/
def parseJNum (l : List Char) : Option (List Char × List Char) :=
  let signAndRest : List Char × List Char :=
    match l with
    | '-' :: t => (['-'], t)
    | _ => ([], l)
  let sgn := signAndRest.1
  let l1 := signAndRest.2
  let intPart : Option (List Char × List Char) :=
    match l1 with
    | '0' :: t => some (['0'], t)
    | c :: t =>
      if c.isDigit then some (c :: t.takeWhile Char.isDigit, t.dropWhile Char.isDigit)
      else none
    | [] => none
  match intPart with
  | none => none
  | some (ip, l2) =>
    let fracPart : Option (List Char × List Char) :=
      match l2 with
      | '.' :: t =>
        if (t.takeWhile Char.isDigit).isEmpty then none
        else some ('.' :: t.takeWhile Char.isDigit, t.dropWhile Char.isDigit)
      | _ => some ([], l2)
    match fracPart with
    | none => none
    | some (fp, l3) =>
      let expPart : Option (List Char × List Char) :=
        match l3 with
        | c :: t =>
          if c = 'e' ∨ c = 'E' then
            let se : List Char × List Char :=
              match t with
              | '+' :: t2 => (['+'], t2)
              | '-' :: t2 => (['-'], t2)
              | _ => ([], t)
            if (se.2.takeWhile Char.isDigit).isEmpty then none
            else some (c :: se.1 ++ se.2.takeWhile Char.isDigit,
                       se.2.dropWhile Char.isDigit)
          else some ([], l3)
        | [] => some ([], l3)
      match expPart with
      | none => none
      | some (ep, l4) => some (sgn ++ ip ++ fp ++ ep, l4)

mutual

/-- Fuel-indexed parser for a JSON value (leading whitespace allowed),
following `JSON.parse`'s grammar. -/
def parseVal : Nat → List Char → Option (Json × List Char)
  | 0, _ => none
  | f + 1, l =>
    match skipJsonWs l with
    | [] => none
    | c :: t =>
      if c = 'n' then
        if leadsL "ull".data t then some (.null, t.drop 3) else none
      else if c = 't' then
        if leadsL "rue".data t then some (.bool true, t.drop 3) else none
      else if c = 'f' then
        if leadsL "alse".data t then some (.bool false, t.drop 4) else none
      else if c = '"' then
        (parseJStrBody t).map (fun r => (.str (String.mk r.1), r.2))
      else if c = lbraceC then
        match skipJsonWs t with
        | c2 :: t2 =>
          if c2 = rbraceC then some (.obj [], t2)
          else
            (parseFields f (c2 :: t2)).map (fun r => (.obj r.1, r.2))
        | [] => none
      else if c = '[' then
        match skipJsonWs t with
        | c2 :: t2 =>
          if c2 = ']' then some (.arr [], t2)
          else (parseElems f (c2 :: t2)).map (fun r => (.arr r.1, r.2))
        | [] => none
      else if c = '-' ∨ c.isDigit then
        (parseJNum (c :: t)).map (fun r => (.num (String.mk r.1), r.2))
      else none

/-- Fuel-indexed parser for the elements of a non-empty JSON array, up to
and including the closing bracket. -/
def parseElems : Nat → List Char → Option (List Json × List Char)
  | 0, _ => none
  | f + 1, l =>
    match parseVal f l with
    | none => none
    | some (v, r) =>
      match skipJsonWs r with
      | ',' :: r2 => (parseElems f r2).map (fun p => (v :: p.1, p.2))
      | c :: r2 => if c = ']' then some ([v], r2) else none
      | [] => none

/-- Fuel-indexed parser for the fields of a non-empty JSON object, up to
and including the closing brace. -/
def parseFields : Nat → List Char → Option (List (String × Json) × List Char)
  | 0, _ => none
  | f + 1, l =>
    match skipJsonWs l with
    | c :: t =>
      if c = '"' then
        match parseJStrBody t with
        | none => none
        | some (key, r) =>
          match skipJsonWs r with
          | ':' :: r2 =>
            match parseVal f r2 with
            | none => none
            | some (v, r3) =>
              match skipJsonWs r3 with
              | ',' :: r4 =>
                (parseFields f r4).map (fun p => ((String.mk key, v) :: p.1, p.2))
              | c2 :: r4 =>
                if c2 = rbraceC then some ([(String.mk key, v)], r4) else none
              | [] => none
          | _ => none
      else none
    | [] => none

end

/-- `JSON.parse` on a character list: parse one value, then require only
trailing whitespace.  The fuel `l.length + 2` exceeds any possible
recursion depth. -/
def jsonParse (l : List Char) : Option Json :=
  match parseVal (l.length + 2) l with
  | some (v, rest) => if skipJsonWs rest = [] then some v else none
  | none => none

/-- Index of the first occurrence of character `c`, as JavaScript
`indexOf` (with `none` for `-1`). -/
def firstIdxOf (c : Char) : List Char → Option Nat
  | [] => none
  | a :: t => if a = c then some 0 else (firstIdxOf c t).map (fun i => i + 1)

/-- Index of the last occurrence of character `c`, as JavaScript
`lastIndexOf`. -/
def lastIdxOf (c : Char) (l : List Char) : Option Nat :=
  (firstIdxOf c l.reverse).map (fun i => l.length - 1 - i)

/-- Case-insensitive match of a (lowercase) literal pattern at the head of
the input, for the `/```json/gi` regex. -/
def leadsCI : List Char → List Char → Bool
  | [], _ => true
  | _ :: _, [] => false
  | p :: ps, c :: cs => c.toLower = p && leadsCI ps cs

/-- Fuel-indexed worker for `removePat`; every step consumes at least one
character, so fuel equal to the input length is always enough. -/
def removePatAux (ci : Bool) (pat : List Char) : Nat → List Char → List Char
  | 0, l => l
  | _ + 1, [] => []
  | f + 1, c :: t =>
    if (if ci then leadsCI pat (c :: t) else leadsL pat (c :: t)) then
      removePatAux ci pat f (t.drop (pat.length - 1))
    else c :: removePatAux ci pat f t

/-- Global left-to-right removal of every occurrence of a non-empty
literal pattern, optionally case-insensitive: embeds
`text.replace(/pat/g, "")` for the fence patterns. -/
def removePat (ci : Bool) (pat : List Char) (l : List Char) : List Char :=
  removePatAux ci pat l.length l

/-- JavaScript whitespace for `trim` (ASCII white space and no-break
space; the rarer Unicode space characters are not modelled — no claim
exercises them). -/
def isJsWsC (c : Char) : Bool :=
  c = ' ' || c = '\t' || c = '\n' || c = '\r' || c = Char.ofNat 11 ||
    c = Char.ofNat 12 || c = Char.ofNat 160

/-- JavaScript `String.prototype.trim`. -/
def jsTrim (l : List Char) : List Char :=
  ((l.dropWhile isJsWsC).reverse.dropWhile isJsWsC).reverse

/-- The aggressive-cleanup step of `parseAndSanitize`: strip
case-insensitive "```json" fences, then remaining "```" fences, then
trim. -/
def stripFences (l : List Char) : List Char :=
  jsTrim (removePat false "```".data (removePat true "```json".data l))

/-- Shallow embedding of `parseAndSanitize` (aiHelpers.ts lines 5-32, and
its identical private copy in geminiService.ts): (1) direct strict parse;
(2) on failure, strict parse of the substring from the first opening
brace to the last closing brace, when both exist in that order; (3) on
failure, strict parse after removing code-fence markers and trimming;
otherwise a `MalformedResponseError`. -/
def parseAndSanitizeL (l : List Char) : Except String Json :=
  match jsonParse l with
  | some v => .ok v
  | none =>
    let step3 : Except String Json :=
      match jsonParse (stripFences l) with
      | some v => .ok v
      | none => .error "The AI generated an invalid response structure. Please try again."
    match firstIdxOf lbraceC l, lastIdxOf rbraceC l with
    | some firstOpen, some lastClose =>
      if lastClose > firstOpen then
        match jsonParse ((l.drop firstOpen).take (lastClose + 1 - firstOpen)) with
        | some v => .ok v
        | none => step3
      else step3
    | _, _ => step3

/-- String-level `parseAndSanitize`. -/
def parseAndSanitize (text : String) : Except String Json :=
  parseAndSanitizeL text.data

/-- JavaScript `data && typeof data === 'object'` for a parsed JSON value:
`null` is falsy, arrays and objects have typeof "object" and are truthy,
every other JSON value has typeof "boolean"/"number"/"string". -/
def jsObjectLike : Json → Bool
  | .obj _ => true
  | .arr _ => true
  | _ => false

/-- The own data fields of a parsed JSON value: for objects, membership
among the field names; for arrays, the element index strings and
"length" (the own properties of a JS array).  This captures "the value
contains the field" as JSON content; the source's `key in data` test is
`jsInData` below, which also sees inherited prototype properties. -/
def hasKey (data : Json) (k : String) : Bool :=
  match data with
  | .obj fields => fields.any (fun p => p.1 = k)
  | .arr es => (List.range es.length).any (fun i => toString i = k) || k = "length"
  | _ => false

/-- The string-keyed members of `Object.prototype` in a browser
environment (the Annex B `__defineGetter__` family included), each with
its template-literal stringification: the function members print as the
host's NativeFunction text (the common one-line form is used; no theorem
depends on its exact whitespace) and the `__proto__` accessor yields
`Object.prototype` itself, which prints as "[object Object]". -/
def objProtoDisplay : List (String × String) :=
  [("constructor", "function Object() \x7b [native code] \x7d"),
   ("hasOwnProperty", "function hasOwnProperty() \x7b [native code] \x7d"),
   ("isPrototypeOf", "function isPrototypeOf() \x7b [native code] \x7d"),
   ("propertyIsEnumerable", "function propertyIsEnumerable() \x7b [native code] \x7d"),
   ("toLocaleString", "function toLocaleString() \x7b [native code] \x7d"),
   ("toString", "function toString() \x7b [native code] \x7d"),
   ("valueOf", "function valueOf() \x7b [native code] \x7d"),
   ("__defineGetter__", "function __defineGetter__() \x7b [native code] \x7d"),
   ("__defineSetter__", "function __defineSetter__() \x7b [native code] \x7d"),
   ("__lookupGetter__", "function __lookupGetter__() \x7b [native code] \x7d"),
   ("__lookupSetter__", "function __lookupSetter__() \x7b [native code] \x7d"),
   ("__proto__", "[object Object]")]

/-- The string-keyed property names of `Object.prototype`. -/
def objProtoProps : List String := objProtoDisplay.map Prod.fst

/-- The string-keyed property names of `Array.prototype` (ES2023). -/
def arrProtoProps : List String :=
  ["length", "constructor", "at", "concat", "copyWithin", "entries", "every",
   "fill", "filter", "find", "findIndex", "findLast", "findLastIndex", "flat",
   "flatMap", "forEach", "includes", "indexOf", "join", "keys", "lastIndexOf",
   "map", "pop", "push", "reduce", "reduceRight", "reverse", "shift", "slice",
   "some", "sort", "splice", "toLocaleString", "toReversed", "toSorted",
   "toSpliced", "toString", "unshift", "values", "with"]

/-- JavaScript `key in data` on a parsed JSON value: the value's own
properties, or an inherited property of its prototype chain
(`Object.prototype` for objects; `Array.prototype` then
`Object.prototype` for arrays). -/
def jsInData (data : Json) (k : String) : Bool :=
  match data with
  | .obj fields => fields.any (fun p => p.1 = k) || objProtoProps.contains k
  | .arr es =>
    (List.range es.length).any (fun i => toString i = k) || k = "length" ||
      arrProtoProps.contains k || objProtoProps.contains k
  | _ => false

/-- Whether an `Except` result is a success. -/
def isOkE (r : Except String Json) : Bool :=
  match r with
  | .ok _ => true
  | .error _ => false

/-- Shallow embedding of `validateStructure` (aiHelpers.ts lines 38-47):
reject a falsy or non-object value, then collect every required key `f`
with `!(f in data)` — the prototype-chain `in` test — and report them
all in one error. -/
def validateStructure (data : Json) (requiredKeys : List String) (context : String) :
    Except String Json :=
  if !jsObjectLike data then .error (context ++ ": Response was not a valid object.")
  else
    let missing := requiredKeys.filter (fun key => !jsInData data key)
    if missing.length > 0 then
      .error (context ++ ": Missing required fields: " ++ String.intercalate ", " missing)
    else .ok data

/-! ## Context compressor (from `compressCodeForContext` of
`src/services/utils/aiHelpers.ts`).

The source applies two global regex replacements:
`code.replace(/data:[a-z]+\/[a-z]+;base64,[A-Za-z0-9+/=]+/g,
'<BASE64_DATA_HIDDEN>')` and then
`.replace(/\[(\s*-?\d*\.?\d+,)\x7b10,\x7d\s*-?\d*\.?\d+\s*\]/g,
'[...GEOMETRY_DATA_HIDDEN...]')`.

Both regexes are lookahead-free and anchor-free, and on their alphabets
backtracking never changes the outcome, so each is embedded as a
deterministic matcher returning the remainder after a match at the head
of the input:

* in the base64 regex each greedy class run (`[a-z]+`, `[A-Za-z0-9+/=]+`)
  is followed by a character outside the class (`/`, `;`, or nothing),
  so giving back characters can never help;
* in the geometry regex, inside one list entry `\s*-?\d*\.?\d+` followed
  by a required `,` (or by `\s*\]` in the final entry), the whitespace
  run, the optional sign and the numeral decomposition are all forced:
  the only decompositions of `\d*\.?\d+` that can be followed by the
  required terminator consume either the whole digit run or the whole
  `digits.digits` token, and a shorter repetition count of the `\x7b10,\x7d`
  group always leaves the tail entry looking at `<numeral>,`, where the
  required `\]` cannot follow, so group backtracking always fails.

A global `replace` scans left to right: at each position it substitutes
the placeholder for a match and continues after it, or keeps the
character and moves one position on — the `scan` functions below (the
fuel only bounds the recursion; every step consumes input, so fuel equal
to the input length is always enough). -/

/-- Lowercase ASCII letter (the `[a-z]` class). -/
def isLowerAZ (c : Char) : Bool := 'a' ≤ c && c ≤ 'z'

/-- The `[A-Za-z0-9+/=]` class of the base64 regex. -/
def isB64c (c : Char) : Bool :=
  ('A' ≤ c && c ≤ 'Z') || ('a' ≤ c && c ≤ 'z') || c.isDigit || c = '+' || c = '/' || c = '='

/-- Every character that can occur anywhere in a base64-regex match:
the class characters plus the literal `:`, `;` and `,`. -/
def isB64any (c : Char) : Bool := isB64c c || c = ':' || c = ';' || c = ','

/-- JavaScript `\s` (the ASCII white-space characters and no-break
space; the rarer Unicode space characters are not modelled — they do not
occur in the placeholders and no claim exercises them). -/
def isWsJS (c : Char) : Bool :=
  c = ' ' || c = '\t' || c = '\n' || c = '\r' || c = Char.ofNat 11 ||
    c = Char.ofNat 12 || c = Char.ofNat 160

/-- Drop a literal pattern from the head of the input, or fail. -/
def dropLitHd (pat l : List Char) : Option (List Char) :=
  if leadsL pat l then some (l.drop pat.length) else none

/-- Match `data:[a-z]+\/[a-z]+;base64,[A-Za-z0-9+/=]+` at the head of
the input, returning the remainder after the (greedy) match. -/
def matchB64 (l : List Char) : Option (List Char) :=
  match dropLitHd "data:".data l with
  | none => none
  | some r1 =>
    if (r1.takeWhile isLowerAZ).isEmpty then none
    else
      match dropLitHd "/".data (r1.dropWhile isLowerAZ) with
      | none => none
      | some r2 =>
        if (r2.takeWhile isLowerAZ).isEmpty then none
        else
          match dropLitHd ";base64,".data (r2.dropWhile isLowerAZ) with
          | none => none
          | some r3 =>
            if (r3.takeWhile isB64c).isEmpty then none
            else some (r3.dropWhile isB64c)

/-- Consume the numeral token `\d*\.?\d+` (the unique decomposition that
can be followed by a non-digit, non-dot terminator): the whole digit run,
or the whole `digits.digits` token when a dot with at least one following
digit is present. -/
def numTok (l : List Char) : Option (List Char) :=
  match l.dropWhile Char.isDigit with
  | '.' :: r2 =>
    if (r2.takeWhile Char.isDigit).isEmpty then
      (if (l.takeWhile Char.isDigit).isEmpty then none else some ('.' :: r2))
    else some (r2.dropWhile Char.isDigit)
  | r => if (l.takeWhile Char.isDigit).isEmpty then none else some r

/-- Strip one optional leading minus sign (`-?`; forced when present). -/
def stripSign : List Char → List Char
  | '-' :: t => t
  | l => l

/-- Match one comma-terminated list entry `\s*-?\d*\.?\d+,` at the head
of the input. -/
def itemStep (l : List Char) : Option (List Char) :=
  match numTok (stripSign (l.dropWhile isWsJS)) with
  | none => none
  | some r =>
    match r with
    | ',' :: r2 => some r2
    | _ => none

/-- Match the final list entry `\s*-?\d*\.?\d+\s*\]` at the head of the
input. -/
def tailStep (l : List Char) : Option (List Char) :=
  match numTok (stripSign (l.dropWhile isWsJS)) with
  | none => none
  | some r =>
    match r.dropWhile isWsJS with
    | ']' :: r2 => some r2
    | _ => none

/-- Fuel-indexed greedy count of comma-terminated entries. -/
def countItemsAux : Nat → List Char → Nat × List Char
  | 0, l => (0, l)
  | f + 1, l =>
    match itemStep l with
    | some r =>
      let p := countItemsAux f r
      (p.1 + 1, p.2)
    | none => (0, l)

/-- Greedy count of comma-terminated entries (each entry consumes at
least two characters, so fuel equal to the input length is enough). -/
def countItems (l : List Char) : Nat × List Char := countItemsAux l.length l

/-- Match the geometry regex
`\[(\s*-?\d*\.?\d+,)\x7b10,\x7d\s*-?\d*\.?\d+\s*\]` at the head of the
input. -/
def matchGeom (l : List Char) : Option (List Char) :=
  match l with
  | '[' :: t =>
    let p := countItems t
    if 10 ≤ p.1 then tailStep p.2 else none
  | _ => none

/-- The base64 placeholder text. -/
def pb64 : String := "<BASE64_DATA_HIDDEN>"

/-- The geometry placeholder text. -/
def pgeom : String := "[...GEOMETRY_DATA_HIDDEN...]"

/-- Fuel-indexed global base64 replacement scan. -/
def scanB64Aux : Nat → List Char → List Char
  | 0, l => l
  | _ + 1, [] => []
  | f + 1, c :: t =>
    match matchB64 (c :: t) with
    | some r => pb64.data ++ scanB64Aux f r
    | none => c :: scanB64Aux f t

/-- Global replacement of every base64 data URI by the placeholder. -/
def scanB64 (l : List Char) : List Char := scanB64Aux l.length l

/-- Fuel-indexed global geometry replacement scan. -/
def scanGeomAux : Nat → List Char → List Char
  | 0, l => l
  | _ + 1, [] => []
  | f + 1, c :: t =>
    match matchGeom (c :: t) with
    | some r => pgeom.data ++ scanGeomAux f r
    | none => c :: scanGeomAux f t

/-- Global replacement of every heavy numeric array literal by the
placeholder. -/
def scanGeom (l : List Char) : List Char := scanGeomAux l.length l

/-- Shallow embedding of `compressCodeForContext`: the falsy-input guard,
then the base64 replacement followed by the geometry replacement. -/
def compressCodeForContext (code : String) : String :=
  if code = "" then "" else String.mk (scanGeom (scanB64 code.data))

/-- No base64-regex match starts anywhere in the text. -/
def cleanB64 (l : List Char) : Prop := ∀ i, matchB64 (l.drop i) = none

/-- No geometry-regex match starts anywhere in the text. -/
def cleanGeom (l : List Char) : Prop := ∀ i, matchGeom (l.drop i) = none

/-- The consumed text of a numeral token. -/
def NumShape (num : List Char) : Prop :=
  (num ≠ [] ∧ ∀ x ∈ num, x.isDigit) ∨
  (∃ dd ee, num = dd ++ '.' :: ee ∧ ee ≠ [] ∧ (∀ x ∈ dd, x.isDigit) ∧
    (∀ x ∈ ee, x.isDigit))

/-- The consumed text of one comma-terminated entry. -/
def ItemShape (w : List Char) : Prop :=
  ∃ ws sgn num, w = ws ++ sgn ++ num ++ [','] ∧ (∀ x ∈ ws, isWsJS x) ∧
    (sgn = [] ∨ sgn = ['-']) ∧ NumShape num

/-- The consumed text of `k` consecutive comma-terminated entries. -/
def ItemsShape : Nat → List Char → Prop
  | 0, w => w = []
  | k + 1, w => ∃ w1 w2, w = w1 ++ w2 ∧ ItemShape w1 ∧ ItemsShape k w2

/-- The consumed text of the final entry, up to the closing bracket. -/
def TailShape (w : List Char) : Prop :=
  ∃ ws sgn num ws2, w = ws ++ sgn ++ num ++ ws2 ++ [']'] ∧
    (∀ x ∈ ws, isWsJS x) ∧ (sgn = [] ∨ sgn = ['-']) ∧ NumShape num ∧
    (∀ x ∈ ws2, isWsJS x)

/-- The consumed text of a base64-regex match. -/
def B64Shape (w : List Char) : Prop :=
  ∃ a b cs, w = "data:".data ++ (a ++ ("/".data ++ (b ++ (";base64,".data ++ cs)))) ∧
    a ≠ [] ∧ (∀ x ∈ a, isLowerAZ x = true) ∧ b ≠ [] ∧ (∀ x ∈ b, isLowerAZ x = true) ∧
    cs ≠ [] ∧ (∀ x ∈ cs, isB64c x = true)

/-! ## Prompt registry (from `src/services/promptRegistry.ts`).

TypeScript enum members are runtime strings, so the computed keys of the
`ENGINE_SPECS` record are the `GameEngine` enum value strings.  Template
literals are embedded as string concatenation; apostrophes and curly
braces inside the literal text are written with `\x27`, `\x7b`, `\x7d`
escapes and newlines with `\n`. -/

/-- The `GameEngine.ThreeJS` enum value. -/
def keyThreeJS : String := "Three.js (Standard)"

/-- The `GameEngine.ThreeJS_WebGPU` enum value. -/
def keyThreeJSWebGPU : String := "Three.js (WebGPU Experimental)"

/-- The `GameEngine.P5JS` enum value. -/
def keyP5JS : String := "p5.js (Creative Coding)"

/-- The `GameEngine.BabylonJS` enum value. -/
def keyBabylonJS : String := "Babylon.js (Enterprise 3D)"

/-- The `GameEngine.KaboomJS` enum value. -/
def keyKaboomJS : String := "Kaboom.js (2D/Retro)"

/-- The `GameEngine.RawWebGL` enum value. -/
def keyRawWebGL : String := "Raw WebGL (No Engine)"

/-- `ENGINE_SPECS[GameEngine.ThreeJS]`: the baseline engine's
boilerplate/import/setup instructions. -/
def specThreeJS : String :=
  "\n    FRAMEWORK: Three.js (Standard WebGL)\n    IMPORTS: \n      import * as THREE from \x27https://unpkg.com/three@0.160.0/build/three.module.js\x27;\n      import \x7b PointerLockControls \x7d from \x27https://unpkg.com/three@0.160.0/examples/jsm/controls/PointerLockControls.js\x27;\n      import \x7b OrbitControls \x7d from \x27https://unpkg.com/three@0.160.0/examples/jsm/controls/OrbitControls.js\x27;\n    BOILERPLATE: Standard Scene, Camera, WebGLRenderer.\n    CHECK: Ensure canvas is attached to body.\n  "

/-- `ENGINE_SPECS[GameEngine.ThreeJS_WebGPU]`. -/
def specThreeJSWebGPU : String :=
  "\n    FRAMEWORK: Three.js (WebGPU - Experimental)\n    IMPORTS: \n       import * as THREE from \x27https://unpkg.com/three@0.167.0/build/three.module.js\x27;\n       import WebGPURenderer from \x27https://unpkg.com/three@0.167.0/examples/jsm/renderers/webgpu/WebGPURenderer.js\x27;\n       import \x7b PointerLockControls \x7d from \x27https://unpkg.com/three@0.167.0/examples/jsm/controls/PointerLockControls.js\x27;\n    BOILERPLATE: \n       const renderer = new WebGPURenderer(\x7b antialias: true \x7d);\n       await renderer.init();\n    IMPORTANT: Do NOT use legacy materials if possible, use MeshStandardMaterialNode or standard materials compatible with WebGPU.\n  "

/-- `ENGINE_SPECS[GameEngine.P5JS]`. -/
def specP5JS : String :=
  "\n    FRAMEWORK: p5.js (Creative Coding)\n    IMPORTS: None (Global Mode via CDN)\n    INJECTION: You MUST include this script tag in the HTML head: <script src=\"https://cdnjs.cloudflare.com/ajax/libs/p5.js/1.9.0/p5.js\"></script>\n    BOILERPLATE: \n       function setup() \x7b createCanvas(windowWidth, windowHeight, WEBGL); ... \x7d\n       function draw() \x7b ... \x7d\n       function windowResized() \x7b resizeCanvas(windowWidth, windowHeight); \x7d\n    NOTE: Use \x27WEBGL\x27 mode in createCanvas for 3D requirements. Use p5\x27s immediate mode geometry (box, sphere) or loadModel.\n  "

/-- `ENGINE_SPECS[GameEngine.BabylonJS]`. -/
def specBabylonJS : String :=
  "\n    FRAMEWORK: Babylon.js\n    IMPORTS: None (Global via CDN)\n    INJECTION: <script src=\"https://cdn.babylonjs.com/babylon.js\"></script><script src=\"https://cdn.babylonjs.com/loaders/babylonjs.loaders.min.js\"></script>\n    BOILERPLATE:\n       const canvas = document.getElementById(\"renderCanvas\"); // Create this canvas\n       const engine = new BABYLON.Engine(canvas, true);\n       const createScene = function() \x7b ... return scene; \x7d;\n       const scene = createScene();\n       engine.runRenderLoop(function () \x7b scene.render(); \x7d);\n  "

/-- `ENGINE_SPECS[GameEngine.KaboomJS]`. -/
def specKaboomJS : String :=
  "\n    FRAMEWORK: Kaboom.js\n    IMPORTS: import kaboom from \"https://unpkg.com/kaboom@3000.0.1/dist/kaboom.mjs\";\n    BOILERPLATE:\n       kaboom(\x7b background: [0,0,0] \x7d);\n       // Define scenes and go(\x27main\x27);\n    NOTE: This is a 2D engine. If the user asked for 3D, simulate it or create a 2.5D pseudo-3D style.\n  "

/-- `ENGINE_SPECS[GameEngine.RawWebGL]`. -/
def specRawWebGL : String :=
  "\n    FRAMEWORK: Raw WebGL API (No Engine)\n    IMPORTS: None.\n    BOILERPLATE: \n       const gl = canvas.getContext(\"webgl\");\n       // You must write the vertex and fragment shaders as string variables.\n       // You must handle buffer creation, linking, and the draw loop manually.\n    WARNING: Keep it simple. A colored cube or basic terrain is sufficient given the complexity.\n  "

/-- The `ENGINE_SPECS` record: a table from engine identifier to
engine-specific instructions. -/
def ENGINE_SPECS : List (String × String) :=
  [(keyThreeJS, specThreeJS),
   (keyThreeJSWebGPU, specThreeJSWebGPU),
   (keyP5JS, specP5JS),
   (keyBabylonJS, specBabylonJS),
   (keyKaboomJS, specKaboomJS),
   (keyRawWebGL, specRawWebGL)]

/-- `ENGINE_SPECS[e]`: bracket access on the record literal is an own
key of the table, or — the table being a plain object inheriting from
`Object.prototype` — an inherited prototype member for names like
"toString"; only when both miss is the access `undefined` (`none`).
Inherited members are functions (or, for `__proto__`, an object); as
prompt-template interpolands they are modelled by their stringified
text, which is never empty — matching their JavaScript truthiness. -/
def lookupSpec (e : String) : Option String :=
  match ENGINE_SPECS.find? (fun p => p.1 = e) with
  | some p => some p.2
  | none => (objProtoDisplay.find? (fun p => p.1 = e)).map Prod.snd

/-- `ENGINE_SPECS[prefs.gameEngine] || ENGINE_SPECS[GameEngine.ThreeJS]`:
a full miss (`undefined`) and an empty-string entry are both falsy and
fall back to the baseline Three.js instructions; any other value — an
own entry or an inherited prototype member — is truthy and is
interpolated itself. -/
def engineSection (e : String) : String :=
  match lookupSpec e with
  | some s => if s = "" then specThreeJS else s
  | none => specThreeJS

/-- The capability flags of `UserPreferences`. -/
structure CapabilityFlags where
  gpuTier : String
  input : String
  telemetry : Bool
deriving DecidableEq

/-- The user preferences (enum-typed fields are runtime strings). -/
structure UserPreferences where
  genre : String
  platform : String
  gameEngine : String
  skillLevel : String
  architectureStyle : String
  projectDescription : String
  visualStyle : String
  cameraPerspective : String
  environmentType : String
  atmosphere : String
  pacing : String
  seed : String
  quality : String
  capabilities : CapabilityFlags
deriving DecidableEq

/-- The blueprint fields read by `PromptRegistry.BuildPrototype`: the
source declares the parameter as `GeneratedGame` but reads
`coreMechanics` and `visualRequirements` through an `as any` cast (they
come from the spec phase and are not part of the interface). -/
structure BlueprintCtx where
  title : String
  coreMechanics : List String
  visualRequirements : List String
deriving DecidableEq

/-- Minimal `JSON.stringify` escaping for a string. -/
def jsonEscape (s : String) : String :=
  String.mk (s.data.foldr
    (fun c acc =>
      if c = '"' then '\\' :: '"' :: acc
      else if c = '\\' then '\\' :: '\\' :: acc
      else if c = '\n' then '\\' :: 'n' :: acc
      else if c = '\r' then '\\' :: 'r' :: acc
      else if c = '\t' then '\\' :: 't' :: acc
      else c :: acc) [])

/-- `JSON.stringify` of an array of strings, as interpolated into the
prompt templates. -/
def jsonStringifyArr (xs : List String) : String :=
  "[" ++ String.intercalate "," (xs.map (fun s => "\"" ++ jsonEscape s ++ "\"")) ++ "]"

/-- The part of the `BuildPrototype` template before the engine-specific
instructions. -/
def buildPrototypeHead (blueprint : BlueprintCtx) (prefs : UserPreferences)
    (gpuRules : String) : String :=
  "\n    Act as an Expert Creative Coder and Game Engine Specialist.\n\n    BLUEPRINT:\n    - Title: "
    ++ blueprint.title
    ++ "\n    - Mechanics: " ++ jsonStringifyArr blueprint.coreMechanics
    ++ "\n    - Visuals: " ++ jsonStringifyArr blueprint.visualRequirements
    ++ "\n\n    USER SETTINGS (Strict Enforcement):\n    - ENGINE: " ++ prefs.gameEngine
    ++ "\n    - PLATFORM: " ++ prefs.platform
    ++ "\n    - INPUT MODE: " ++ prefs.capabilities.input
    ++ "\n    - Style: " ++ prefs.visualStyle
    ++ "\n    - Camera: " ++ prefs.cameraPerspective
    ++ "\n    - Env: " ++ prefs.environmentType
    ++ "\n    - PROTOTYPE QUALITY: " ++ prefs.quality
    ++ "\n    - GPU TIER: " ++ prefs.capabilities.gpuTier
    ++ "\n    \n    " ++ gpuRules
    ++ "\n\n    ENGINE SPECIFIC INSTRUCTIONS:\n    "

/-- The part of the `BuildPrototype` template after the engine-specific
instructions. -/
def buildPrototypeTail (prefs : UserPreferences) (audioContextStr : String) : String :=
  "\n    \n    DETERMINISTIC SEED: \"" ++ prefs.seed
    ++ "\"\n    You MUST implement a seeded random number generator (PRNG) and use it for ALL procedural generation.\n    \n    AUDIO SYSTEM:\n    "
    ++ audioContextStr
    ++ "\n\n    Task:\n    Build a single-file HTML/JS prototype.\n    \n    CRITICAL IMPLEMENTATION RULES:\n    1. SINGLE FILE: All HTML, CSS, and JS must be in one string.\n    2. MODULE BOUNDARIES: Organize code into commented sections (CORE, RENDERER, INPUT, LOGIC).\n    3. \x27CLICK TO PLAY\x27 OVERLAY (MANDATORY):\n       - You MUST include a <div id=\"overlay\">...</div> covering the screen.\n       - You MUST add a click event listener to this overlay to unlock AudioContext and start the loop.\n    \n    4. TELEMETRY:\n       "
    ++ (if prefs.capabilities.telemetry then
          "You MUST inject telemetry code to post \x27forge-telemetry\x27 messages with fps and entities count to window.parent."
        else "")
    ++ "\n\n    Output: JSON with \x27html\x27 string and \x27instructions\x27.\n  "

/-- `PromptRegistry.BuildPrototype`: the Build-phase prompt, with the
engine-specific instructions interpolated from the `ENGINE_SPECS` table
(falling back to the baseline Three.js engine on a miss). -/
def BuildPrototype (blueprint : BlueprintCtx) (prefs : UserPreferences)
    (audioContextStr : String) (gpuRules : String) : String :=
  buildPrototypeHead blueprint prefs gpuRules
    ++ engineSection prefs.gameEngine
    ++ buildPrototypeTail prefs audioContextStr

/-- `a` occurs as a contiguous substring of `b`. -/
def inSegS (a b : String) : Prop := ∃ u v, b = u ++ a ++ v

/-! ## Concrete sample values used by counterexamples and witnesses -/

/-- A small architecture block. -/
def archSample : ArchitectureBlock :=
  { style := "ECS", description := "entity component system", nodes := [] }

/-- A concrete manifest with no parent hash, as produced by
`generatePrototype` (which never sets `parentHash`). -/
def manifestSample : ForgeManifest :=
  { version := "1.0.0", timestamp := 0, seed := "abc123", specHash := "spec1"
    buildHash := "build1", platform := "Web (WebGL/WebGPU)"
    quality := "Prototype (Standard)", parentHash := none }

/-- A concrete generated game carrying a manifest. -/
def gameSample : GeneratedGame :=
  { title := "T", summary := "S", html := some "<p>old</p>"
    instructions := some "move with WASD", recommendedEngine := "Three.js"
    language := "TypeScript", architecture := archSample, techStack := []
    prerequisites := [], audio := none, manifest := some manifestSample }

/-- A concrete rewrite-mode refinement response. -/
def rewriteResp : RefineResponse :=
  { editMode := some "rewrite", edits := none, fullCode := some "<p>new</p>"
    instructions := none }

/-- A patch response whose single edit's replacement text contains the
ECMAScript substitution pattern for the matched substring. -/
def dollarResp : RefineResponse :=
  { editMode := some "patch", edits := some [{ search := "A", replace := "$&b" }]
    fullCode := none, instructions := none }

/-- A patch response whose single edit has a dollar-free replacement. -/
def noDollarResp : RefineResponse :=
  { editMode := some "patch", edits := some [{ search := "A", replace := "Zk" }]
    fullCode := none, instructions := none }

/-- A patch response with a matching first edit and a non-matching second
edit. -/
def partialRespA : RefineResponse :=
  { editMode := some "patch"
    edits := some [{ search := "b", replace := "X" }, { search := "zz", replace := "w" }]
    fullCode := none, instructions := none }

/-- A patch response with a non-matching first edit and a matching second
edit. -/
def partialRespB : RefineResponse :=
  { editMode := some "patch"
    edits := some [{ search := "zz", replace := "w" }, { search := "b", replace := "X" }]
    fullCode := none, instructions := none }

/-- Sample preferences requesting an engine that is not in the table. -/
def prefsUnknownEngine : UserPreferences :=
  { genre := "Arcade / Action", platform := "Web (WebGL/WebGPU)"
    gameEngine := "Unity (Native)", skillLevel := "Beginner"
    architectureStyle := "AI Recommended", projectDescription := "a demo"
    visualStyle := "Low Poly / Flat Shaded", cameraPerspective := "First Person (FPS)"
    environmentType := "Arena / Enclosed", atmosphere := "Bright / Sunny"
    pacing := "Fast / Arcade", seed := "abc123", quality := "Sketch (Low Detail, Fast)"
    capabilities := { gpuTier := "low", input := "mouse", telemetry := true } }

/-- Sample preferences requesting the p5.js engine from the table. -/
def prefsP5 : UserPreferences :=
  { prefsUnknownEngine with gameEngine := "p5.js (Creative Coding)" }

/-- Sample preferences whose engine identifier names an inherited
`Object.prototype` member rather than a table entry. -/
def prefsProtoEngine : UserPreferences :=
  { prefsUnknownEngine with gameEngine := "toString" }

/-- A patch response whose first edit has an empty search text (which
occurs in every html by `includes`) and whose second edit does not
match. -/
def emptySearchResp : RefineResponse :=
  { editMode := some "patch"
    edits := some [{ search := "", replace := "X" }, { search := "zz", replace := "w" }]
    fullCode := none, instructions := none }

/-- A sample blueprint context. -/
def blueprintSample : BlueprintCtx :=
  { title := "Neon Runner", coreMechanics := ["run", "jump"]
    visualRequirements := ["Neon Bloom"] }

/-! ## Theorems -/

theorem leadsL_iff (s l : List Char) : leadsL s l = true ↔ ∃ t, l = s ++ t := by
  induction s generalizing l with
  | nil => simp [leadsL]
  | cons a s ih =>
    cases l with
    | nil => simp [leadsL]
    | cons b t =>
      simp only [leadsL, Bool.and_eq_true, decide_eq_true_eq, ih]
      constructor
      · rintro ⟨rfl, u, rfl⟩; exact ⟨u, rfl⟩
      · rintro ⟨u, h⟩
        injection h with h1 h2
        exact ⟨h1.symm, u, h2⟩

theorem firstOccAt_drop (pat l : List Char) (i : Nat) (h : firstOccAt pat l = some i) :
    leadsL pat (l.drop i) = true := by
  induction l generalizing i with
  | nil =>
    simp only [firstOccAt] at h
    split at h
    · next hl => cases h; simpa using hl
    · cases h
  | cons c t ih =>
    simp only [firstOccAt] at h
    split at h
    · next hl => cases h; simpa using hl
    · next hl =>
      cases hf : firstOccAt pat t with
      | none => rw [hf] at h; cases h
      | some j =>
        rw [hf] at h
        simp only [Option.map_some'] at h
        cases h
        simpa using ih j hf

theorem firstOccAt_isSome (pat l : List Char) (i : Nat)
    (h : leadsL pat (l.drop i) = true) : (firstOccAt pat l).isSome := by
  induction l generalizing i with
  | nil =>
    simp only [List.drop_nil] at h
    simp [firstOccAt, h]
  | cons c t ih =>
    simp only [firstOccAt]
    split
    · simp
    · next hl =>
      cases i with
      | zero => simp only [List.drop_zero] at h; exact absurd h hl
      | succ j =>
        simp only [List.drop_succ_cons] at h
        have := ih j h
        cases hf : firstOccAt pat t with
        | none => rw [hf] at this; simp at this
        | some k => simp

theorem countOccurL_unique (s l : List Char) (hs : s ≠ [])
    (hcount : countOccurL s l = 1) (i j : Nat)
    (hi : leadsL s (l.drop i) = true) (hj : leadsL s (l.drop j) = true) : i = j := by
  have hmemr : ∀ k, leadsL s (l.drop k) = true → k < l.length + 1 := by
    intro k hk
    rcases (leadsL_iff s (l.drop k)).mp hk with ⟨t, ht⟩
    by_contra hge
    push_neg at hge
    have : l.drop k = [] := List.drop_eq_nil_of_le (by omega)
    rw [this] at ht
    cases s with
    | nil => exact hs rfl
    | cons a u => simp at ht
  have hifilt : i ∈ (List.range (l.length + 1)).filter
      (fun k => leadsL s (l.drop k)) := by
    rw [List.mem_filter]
    exact ⟨List.mem_range.mpr (hmemr i hi), by simpa using hi⟩
  have hjfilt : j ∈ (List.range (l.length + 1)).filter
      (fun k => leadsL s (l.drop k)) := by
    rw [List.mem_filter]
    exact ⟨List.mem_range.mpr (hmemr j hj), by simpa using hj⟩
  unfold countOccurL at hcount
  rcases List.length_eq_one.mp hcount with ⟨a, ha⟩
  rw [ha] at hifilt hjfilt
  simp only [List.mem_singleton] at hifilt hjfilt
  omega

theorem expandRepl_of_noDollar (m b a rep : List Char) (h : '$' ∉ rep) :
    expandRepl m b a rep = rep := by
  induction rep with
  | nil => rfl
  | cons c rest ih =>
    have hc : c ≠ '$' := fun hc => h (hc ▸ List.mem_cons_self c rest)
    have hrest : '$' ∉ rest := fun hr => h (List.mem_cons_of_mem c hr)
    cases rest with
    | nil => simp [expandRepl, hc]
    | cons d rest2 => simp [expandRepl, hc, ih hrest]

theorem firstOccAt_at_unique (s p q : List Char) (hs : s ≠ [])
    (hcount : countOccurL s (p ++ s ++ q) = 1) :
    firstOccAt s (p ++ s ++ q) = some p.length := by
  have hocc : leadsL s ((p ++ s ++ q).drop p.length) = true := by
    rw [List.append_assoc, List.drop_left]
    exact (leadsL_iff s (s ++ q)).mpr ⟨q, rfl⟩
  have hsome := firstOccAt_isSome s (p ++ s ++ q) p.length hocc
  cases hf : firstOccAt s (p ++ s ++ q) with
  | none => rw [hf] at hsome; simp at hsome
  | some i =>
    have hlead := firstOccAt_drop s (p ++ s ++ q) i hf
    have := countOccurL_unique s (p ++ s ++ q) hs hcount i p.length hlead hocc
    rw [this]

theorem jsReplaceFirstL_unique (s p q rep : List Char) (hs : s ≠ [])
    (hcount : countOccurL s (p ++ s ++ q) = 1) :
    jsReplaceFirstL (p ++ s ++ q) s rep = p ++ expandRepl s p q rep ++ q := by
  have hf := firstOccAt_at_unique s p q hs hcount
  have htake : (p ++ s ++ q).take p.length = p := by
    rw [List.append_assoc, List.take_left]
  have hdrop : (p ++ s ++ q).drop (p.length + s.length) = q := by
    rw [← List.length_append, List.drop_left]
  unfold jsReplaceFirstL
  rw [hf]
  simp only [htake, hdrop]

/-- C4: whenever the provider call or the sanitization of its response
fails (the `Except` input is an error), `refineGame` fails with a single
error whose message is prefixed with the refinement phase
("Refinement Failed: "), and — the embedding being a pure function that
never writes to a field of `currentGame` — the caller's input value is
left unchanged: no `GeneratedGame` is produced at all on this path. -/
theorem refine_failure_prefixed (g : GeneratedGame) (m : String) :
    refineGame g (.error m) = .error ("Refinement Failed: " ++ m) ∧
    ("Refinement Failed: " ++ m).data = "Refinement Failed: ".data ++ m.data :=
  ⟨rfl, rfl⟩

/-- C5: if the Soundscape phase's provider call or response parsing fails,
`generateSoundscape` does not throw (its embedding is total, returning
`GameAudio`) and returns the fixed fallback bundle with an empty
`soundEffects` list and description "Audio generation failed.". -/
theorem soundscape_failure_fallback (m : String) :
    generateSoundscape (.error m) = fallbackAudio ∧
    (generateSoundscape (.error m)).soundEffects = [] ∧
    (generateSoundscape (.error m)).description = "Audio generation failed." :=
  ⟨rfl, rfl, rfl⟩

/-- C10: for every successful `refineGame` call, every field of the
returned game other than `html` and `instructions` equals the
corresponding field of the input game; in particular the audio bundle and
the manifest are carried over unchanged, in both rewrite and patch
modes. -/
theorem refine_frame_condition (g : GeneratedGame) (res : Except String RefineResponse)
    (g' : GeneratedGame) (h : refineGame g res = .ok g') :
    g'.title = g.title ∧ g'.summary = g.summary ∧
    g'.recommendedEngine = g.recommendedEngine ∧ g'.language = g.language ∧
    g'.architecture = g.architecture ∧ g'.techStack = g.techStack ∧
    g'.prerequisites = g.prerequisites ∧ g'.audio = g.audio ∧
    g'.manifest = g.manifest := by
  cases res with
  | error m => simp [refineGame] at h
  | ok r =>
    simp only [refineGame] at h
    split at h <;>
      (simp only [Except.ok.injEq] at h; subst h; simp)

/-- C10 witness: the frame condition at a concrete rewrite call. -/
theorem refine_frame_condition_witness :
    ({ gameSample with html := some "<p>new</p>" } : GeneratedGame).audio = gameSample.audio ∧
    ({ gameSample with html := some "<p>new</p>" } : GeneratedGame).manifest = gameSample.manifest := by
  have h := refine_frame_condition gameSample (.ok rewriteResp)
    { gameSample with html := some "<p>new</p>" } rfl
  exact ⟨h.2.2.2.2.2.2.2.1, h.2.2.2.2.2.2.2.2⟩

/-- C1 counterexample: a successful `refineGame` call on a game whose
manifest is present for which the returned game's manifest is the input
manifest itself — its `parentHash` is `none`, not the build hash of the
input manifest, and no new manifest is computed. -/
theorem refine_no_new_manifest_cex :
    refineGame gameSample (.ok rewriteResp) =
      .ok { gameSample with html := some "<p>new</p>" } ∧
    gameSample.manifest = some manifestSample ∧
    ({ gameSample with html := some "<p>new</p>" } : GeneratedGame).manifest
      = some manifestSample ∧
    manifestSample.parentHash = none ∧
    manifestSample.parentHash ≠ some manifestSample.buildHash := by
  refine ⟨rfl, rfl, rfl, rfl, by simp [manifestSample]⟩

/-- C1 (amended): for every successful `refineGame` call the returned
game's manifest equals the input game's manifest unchanged — no new
manifest is computed from the new artifact content and `parentHash` is
never set by refinement. -/
theorem refine_manifest_unchanged (g : GeneratedGame)
    (res : Except String RefineResponse) (g' : GeneratedGame)
    (h : refineGame g res = .ok g') : g'.manifest = g.manifest := by
  cases res with
  | error m => simp [refineGame] at h
  | ok r =>
    simp only [refineGame] at h
    split at h <;>
      (simp only [Except.ok.injEq] at h; subst h; rfl)

/-- C1 witness: the amended statement at a concrete successful call. -/
theorem refine_manifest_unchanged_witness :
    ({ gameSample with html := some "<p>new</p>" } : GeneratedGame).manifest
      = gameSample.manifest :=
  refine_manifest_unchanged gameSample (.ok rewriteResp)
    { gameSample with html := some "<p>new</p>" } rfl

/-- C2 counterexample: a patch refinement whose single edit's search text
"A" occurs exactly once in the artifact "xAy" and whose replacement text
is the substitution pattern for the matched substring followed by "b";
JavaScript `String.prototype.replace` expands the pattern, so the result
is "xAby" and not the original with the literal replace text spliced in
("x$&by"), contradicting the claim as stated. -/
theorem refine_patch_dollar_cex :
    countOccur "A" "xAy" = 1 ∧
    refineGame { gameSample with html := some "xAy" } (.ok dollarResp) =
      .ok { gameSample with html := some "xAby" } ∧
    ("xAby" : String) ≠ "x" ++ "$&b" ++ "y" := by
  refine ⟨by decide, rfl, by decide⟩

/-- C2 (amended): a patch refinement whose parsed response has
`editMode = patch` with a single edit whose non-empty search text occurs
exactly once in the current artifact's html and whose replace text
contains no dollar character (hence no ECMAScript substitution pattern)
returns the artifact identical to the original except that the single
occurrence of the search text is replaced by the replace text, and the
returned instructions equal the input's instructions when the response
supplies no instructions field. -/
theorem refine_patch_single_edit (g : GeneratedGame) (r : RefineResponse) (e : Edit)
    (h0 : String) (p q : List Char)
    (hhtml : g.html = some h0)
    (hmode : r.editMode = some "patch")
    (hedits : r.edits = some [e])
    (hinstr : r.instructions = none)
    (hdecomp : h0.data = p ++ e.search.data ++ q)
    (hone : countOccur e.search h0 = 1)
    (hs : e.search ≠ "")
    (hnd : '$' ∉ e.replace.data) :
    refineGame g (.ok r) =
      .ok { g with html := some (String.mk (p ++ e.replace.data ++ q)),
                   instructions := g.instructions } := by
  have hsl : e.search.data ≠ [] := by
    intro hh
    exact hs (String.ext hh)
  unfold countOccur at hone
  rw [hdecomp] at hone
  have hincl : jsIncludes h0 e.search = true := by
    unfold jsIncludes jsIncludesL
    rw [hdecomp, firstOccAt_at_unique e.search.data p q hsl hone]
    rfl
  have hrepl : jsReplaceFirst h0 e.search e.replace = String.mk (p ++ e.replace.data ++ q) := by
    unfold jsReplaceFirst
    rw [hdecomp, jsReplaceFirstL_unique e.search.data p q e.replace.data hsl hone,
      expandRepl_of_noDollar _ _ _ _ hnd]
  have hcond : ¬(r.editMode = some "rewrite" ∧ truthyS r.fullCode = true) := by
    rw [hmode]
    rintro ⟨hm, _⟩
    exact absurd hm (by decide)
  have hguard : (e.search ≠ "" && jsIncludes h0 e.search) = true := by
    rw [hincl]
    simp [hs]
  simp only [refineGame]
  rw [if_neg hcond]
  simp only [hedits, hhtml, hinstr, Option.getD_some, applyEdits, List.foldl, applyEdit,
    hguard, if_true, hrepl]
  simp [jsOrOpt, truthyS]

/-- C2 witness: the amended statement at a concrete input. -/
theorem refine_patch_single_edit_witness :
    refineGame { gameSample with html := some "xAy" } (.ok noDollarResp) =
      .ok { gameSample with html := some "xZky" } := by
  have h := refine_patch_single_edit { gameSample with html := some "xAy" } noDollarResp
    { search := "A", replace := "Zk" } "xAy" ("x".data) ("y".data)
    rfl rfl rfl rfl (by decide) (by decide) (by decide) (by decide)
  rw [h]
  rfl

/-- C3 counterexample to the original claim: by the code's own
membership test an empty search text occurs in every artifact
(`"abc".includes("")` is true), and the second edit does not match, so
the original claim says the empty-search edit is applied — which would
splice its replacement at the first (empty) occurrence, giving "Xabc".
The code's falsy guard `searchBlock && …` skips the edit instead, and
the artifact comes back unchanged. -/
theorem refine_patch_empty_search_cex :
    jsIncludes "abc" "" = true ∧
    refineGame { gameSample with html := some "abc" } (.ok emptySearchResp) =
      .ok { gameSample with html := some "abc" } ∧
    jsReplaceFirst "abc" "" "X" = "Xabc" :=
  ⟨rfl, rfl, rfl⟩

/-- C3 (amended): a patch refinement with two edits whose search texts
are non-empty, one matching the artifact at the point it is processed
and one not found there, succeeds (returns `.ok`, it does not throw),
applies the matching edit and skips the non-matching edit with no change
to the artifact for it; this holds for either order of the two edits.
The non-emptiness proviso is forced by the code: an empty search text
occurs in every artifact by `includes`, yet the falsy guard skips such
an edit (the counterexample above). -/
theorem refine_patch_partial (g : GeneratedGame) (r : RefineResponse) (e1 e2 : Edit)
    (h0 : String)
    (hhtml : g.html = some h0)
    (hmode : r.editMode = some "patch")
    (hedits : r.edits = some [e1, e2])
    (hinstr : r.instructions = none) :
    (e1.search ≠ "" → jsIncludes h0 e1.search = true →
     e2.search ≠ "" → jsIncludes (jsReplaceFirst h0 e1.search e1.replace) e2.search = false →
      refineGame g (.ok r) =
        .ok { g with html := some (jsReplaceFirst h0 e1.search e1.replace),
                     instructions := g.instructions }) ∧
    (e1.search ≠ "" → jsIncludes h0 e1.search = false →
     e2.search ≠ "" → jsIncludes h0 e2.search = true →
      refineGame g (.ok r) =
        .ok { g with html := some (jsReplaceFirst h0 e2.search e2.replace),
                     instructions := g.instructions }) := by
  have hcond : ¬(r.editMode = some "rewrite" ∧ truthyS r.fullCode = true) := by
    rw [hmode]
    rintro ⟨hm, _⟩
    exact absurd hm (by decide)
  constructor
  · intro h1ne h1in h2ne h2out
    have hg1 : (e1.search ≠ "" && jsIncludes h0 e1.search) = true := by
      rw [h1in]; simp [h1ne]
    have hg2 : (e2.search ≠ "" &&
        jsIncludes (jsReplaceFirst h0 e1.search e1.replace) e2.search) = true → False := by
      rw [h2out]; simp
    simp only [refineGame]
    rw [if_neg hcond]
    simp only [hedits, hhtml, hinstr, Option.getD_some, applyEdits, List.foldl, applyEdit,
      hg1, if_true, jsOrOpt, truthyS, if_false]
    rw [if_neg (fun hx => hg2 hx)]
    simp
  · intro h1ne h1out h2ne h2in
    have hg1 : (e1.search ≠ "" && jsIncludes h0 e1.search) = true → False := by
      rw [h1out]; simp
    have hg2 : (e2.search ≠ "" && jsIncludes h0 e2.search) = true := by
      rw [h2in]; simp [h2ne]
    simp only [refineGame]
    rw [if_neg hcond]
    simp only [hedits, hhtml, hinstr, Option.getD_some, applyEdits, List.foldl, applyEdit,
      jsOrOpt, truthyS, if_false]
    rw [if_neg (fun hx => hg1 hx), if_pos hg2]
    simp

/-- C3 witness: both orders at concrete inputs — edit ("b" to "X")
matches "abc" and edit ("zz" to "w") does not. -/
theorem refine_patch_partial_witness :
    refineGame { gameSample with html := some "abc" } (.ok partialRespA) =
      .ok { gameSample with html := some "aXc" } ∧
    refineGame { gameSample with html := some "abc" } (.ok partialRespB) =
      .ok { gameSample with html := some "aXc" } := by
  constructor
  · have h := refine_patch_partial { gameSample with html := some "abc" } partialRespA
      { search := "b", replace := "X" } { search := "zz", replace := "w" } "abc"
      rfl rfl rfl rfl
    have h1 := h.1 (by decide) (by decide) (by decide) (by decide)
    rw [h1]
    rfl
  · have h := refine_patch_partial { gameSample with html := some "abc" } partialRespB
      { search := "zz", replace := "w" } { search := "b", replace := "X" } "abc"
      rfl rfl rfl rfl
    have h2 := h.2 (by decide) (by decide) (by decide) (by decide)
    rw [h2]
    rfl

theorem firstIdxOf_append (c : Char) (pre l : List Char) (h : c ∉ pre) :
    firstIdxOf c (pre ++ l) = (firstIdxOf c l).map (fun i => i + pre.length) := by
  induction pre with
  | nil =>
    simp only [List.nil_append, List.length_nil]
    cases firstIdxOf c l <;> simp
  | cons a t ih =>
    have ha : a ≠ c := by intro hc; exact h (by simp [hc])
    have h2 : c ∉ t := by intro hm; exact h (by simp [hm])
    simp only [List.cons_append, firstIdxOf, List.append_eq]
    rw [if_neg ha, ih h2]
    cases firstIdxOf c l with
    | none => rfl
    | some i =>
      simp
      omega

theorem firstIdxOf_cons_eq (c : Char) (t : List Char) : firstIdxOf c (c :: t) = some 0 := by
  simp [firstIdxOf]

/-- C6 (amended): for every raw text that wraps a valid structured (JSON)
object payload (opening with a brace and closing with a brace) in a
fenced-code block or leading/trailing prose, where the leading wrapper
contains no opening brace, the trailing wrapper contains no closing
brace, and the wrapped text is not itself parseable as JSON (as with any
genuine prose or fence markers), `parseAndSanitize` succeeds and returns
the same structured value as parsing the embedded payload alone. -/
theorem parseAndSanitize_wrapped (pre mid post : List Char) (v : Json)
    (hpre : lbraceC ∉ pre) (hpost : rbraceC ∉ post)
    (hparse : jsonParse (lbraceC :: (mid ++ [rbraceC])) = some v)
    (hwhole : jsonParse (pre ++ (lbraceC :: (mid ++ [rbraceC])) ++ post) = none) :
    parseAndSanitizeL (pre ++ (lbraceC :: (mid ++ [rbraceC])) ++ post) = .ok v := by
  have hfo : firstIdxOf lbraceC (pre ++ (lbraceC :: (mid ++ [rbraceC])) ++ post)
      = some pre.length := by
    rw [List.append_assoc, firstIdxOf_append _ _ _ hpre]
    simp only [List.cons_append, firstIdxOf_cons_eq, Option.map_some']
    simp
  have hfr : firstIdxOf rbraceC ((pre ++ (lbraceC :: (mid ++ [rbraceC])) ++ post).reverse)
      = some post.length := by
    have hrev : (pre ++ (lbraceC :: (mid ++ [rbraceC])) ++ post).reverse
        = post.reverse ++ (rbraceC :: (mid.reverse ++ (lbraceC :: pre.reverse))) := by
      simp
    have hpr : rbraceC ∉ post.reverse := by simpa using hpost
    rw [hrev, firstIdxOf_append _ _ _ hpr, firstIdxOf_cons_eq]
    simp
  have hlen : (pre ++ (lbraceC :: (mid ++ [rbraceC])) ++ post).length
      = pre.length + mid.length + 2 + post.length := by
    simp
    omega
  have hlast : lastIdxOf rbraceC (pre ++ (lbraceC :: (mid ++ [rbraceC])) ++ post)
      = some (pre.length + mid.length + 1) := by
    unfold lastIdxOf
    rw [hfr]
    simp only [Option.map_some']
    congr 1
    omega
  have harith : pre.length + mid.length + 1 + 1 - pre.length = mid.length + 2 := by omega
  have hslice : ((pre ++ (lbraceC :: (mid ++ [rbraceC])) ++ post).drop pre.length).take
      (mid.length + 2) = lbraceC :: (mid ++ [rbraceC]) := by
    rw [List.append_assoc, List.drop_left]
    have hlen2 : (lbraceC :: (mid ++ [rbraceC])).length = mid.length + 2 := by simp
    rw [← hlen2, List.take_left]
  simp only [parseAndSanitizeL, hwhole, hfo, hlast]
  rw [if_pos (by omega)]
  rw [harith, hslice, hparse]

/-- C6 witness: a payload wrapped in prose and a code fence is recovered
exactly. -/
theorem parseAndSanitize_wrapped_witness :
    parseAndSanitizeL ("Sure! ```json\n".data
        ++ (lbraceC :: ("\"a\":1".data ++ [rbraceC])) ++ "\n``` enjoy".data)
      = .ok (Json.obj [("a", Json.num "1")]) :=
  parseAndSanitize_wrapped "Sure! ```json\n".data "\"a\":1".data "\n``` enjoy".data
    (Json.obj [("a", Json.num "1")]) (by decide) (by decide) rfl rfl

/-- C6 counterexample: prose containing braces defeats the
brace-substring recovery strategy — for the text
"Result \x7bok\x7d: \x7b"a":1\x7d", whose embedded trailing payload
parses alone, `parseAndSanitize` fails with the malformed-response error
instead of recovering the payload's value, so the claim as stated is
false. -/
theorem parseAndSanitize_prose_cex :
    parseAndSanitizeL ("Result \x7bok\x7d: \x7b\"a\":1\x7d".data) =
      .error "The AI generated an invalid response structure. Please try again." ∧
    jsonParse ("\x7b\"a\":1\x7d".data) = some (Json.obj [("a", Json.num "1")]) :=
  ⟨rfl, rfl⟩

theorem jsInData_eq_hasKey (data : Json) (k : String)
    (h1 : objProtoProps.contains k = false) (h2 : arrProtoProps.contains k = false) :
    jsInData data k = hasKey data k := by
  cases data <;> simp only [jsInData, hasKey, h1, h2, Bool.or_false]

/-- C7 counterexample to the original claim: the source tests
`key in data`, which consults the prototype chain, so a required field
naming an inherited property — here "toString", an `Object.prototype`
member present on every object — is never reported missing: the empty
object omits the field as JSON content, yet validation succeeds instead
of failing with a message naming it. -/
theorem validateStructure_proto_cex :
    hasKey (Json.obj []) "toString" = false ∧
    validateStructure (Json.obj []) ["toString"] "Spec Parse" = .ok (Json.obj []) :=
  ⟨rfl, rfl⟩

/-- C7 (amended): provided no required field name collides with a
built-in prototype property (an `Object.prototype` member, or an
`Array.prototype` member for arrays — `toString`, `valueOf`, `map`, …),
`validateStructure` fails exactly when the value fails the JavaScript
object check (`null`, booleans, numbers and strings fail it; objects and
arrays — whose own fields are their index strings and "length" — pass
it) or omits at least one required field; on failure over an object-like
value the message names exactly the missing required fields; and at
requiredFields `[a, b, c]` with input `\x7ba:1, c:3\x7d` the error names
exactly `b`.  Required fields naming inherited properties are never
reported missing (the counterexample above). -/
theorem validateStructure_spec (data : Json) (req : List String) (ctx : String)
    (hp : ∀ k ∈ req, objProtoProps.contains k = false ∧ arrProtoProps.contains k = false) :
    (isOkE (validateStructure data req ctx) = false ↔
      (jsObjectLike data = false ∨ ∃ k ∈ req, hasKey data k = false)) ∧
    (jsObjectLike data = true →
      ∀ msg, validateStructure data req ctx = .error msg →
        msg = ctx ++ ": Missing required fields: "
          ++ String.intercalate ", " (req.filter (fun k => !hasKey data k))) ∧
    (∀ k, k ∈ req.filter (fun k => !hasKey data k) ↔ (k ∈ req ∧ hasKey data k = false)) ∧
    validateStructure (Json.obj [("a", Json.num "1"), ("c", Json.num "3")]) ["a", "b", "c"] ctx
      = .error (ctx ++ ": Missing required fields: " ++ "b") := by
  have hfilter : List.filter (fun key => !jsInData data key) req
      = List.filter (fun k => !hasKey data k) req := by
    apply List.filter_congr
    intro k hk
    rw [jsInData_eq_hasKey data k (hp k hk).1 (hp k hk).2]
  refine ⟨?_, ?_, ?_, rfl⟩
  · unfold validateStructure isOkE
    rw [hfilter]
    cases hobj : jsObjectLike data with
    | false => simp
    | true =>
      simp only [Bool.not_true, Bool.false_eq_true, if_false]
      by_cases hm : 0 < (req.filter (fun k => !hasKey data k)).length
      · rw [if_pos hm]
        simp only [true_iff]
        right
        obtain ⟨k, hk⟩ := List.exists_mem_of_length_pos hm
        rw [List.mem_filter] at hk
        exact ⟨k, hk.1, by simpa using hk.2⟩
      · rw [if_neg hm]
        simp only [Bool.true_eq_false, false_iff, false_or]
        rintro ⟨k, hkreq, hkmiss⟩
        exact absurd (List.length_pos.mpr (List.ne_nil_of_mem
          (List.mem_filter.mpr ⟨hkreq, by simp [hkmiss]⟩))) hm
  · intro hobj msg hmsg
    unfold validateStructure at hmsg
    rw [hfilter, hobj] at hmsg
    simp only [Bool.not_true, Bool.false_eq_true, if_false] at hmsg
    by_cases hm : 0 < (req.filter (fun k => !hasKey data k)).length
    · rw [if_pos hm] at hmsg
      injection hmsg with hinj
      exact hinj.symm
    · rw [if_neg hm] at hmsg
      cases hmsg
  · intro k
    rw [List.mem_filter]
    simp

/-- C7 witness: the specification applied at the concrete missing-field
example of the spec; the fields `a`, `b`, `c` collide with no built-in
prototype property. -/
theorem validateStructure_spec_witness :
    validateStructure (Json.obj [("a", Json.num "1"), ("c", Json.num "3")])
      ["a", "b", "c"] "Blueprint Spec"
      = .error ("Blueprint Spec" ++ ": Missing required fields: " ++ "b") :=
  (validateStructure_spec (Json.obj [("a", Json.num "1"), ("c", Json.num "3")])
    ["a", "b", "c"] "Blueprint Spec" (by decide)).2.2.2

/-- C9 counterexample to the original claim: "toString" is not a key of
the `ENGINE_SPECS` table, yet `ENGINE_SPECS["toString"]` is the
inherited `Object.prototype.toString` — truthy — so the `||` fallback is
not taken and the Build-phase prompt embeds the stringified built-in
function instead of the baseline Three.js instructions. -/
theorem buildPrototype_proto_cex :
    ENGINE_SPECS.find? (fun p => p.1 = "toString") = none ∧
    engineSection "toString" = "function toString() \x7b [native code] \x7d" ∧
    engineSection "toString" ≠ specThreeJS ∧
    inSegS "function toString() \x7b [native code] \x7d"
      (BuildPrototype blueprintSample prefsProtoEngine "NO CUSTOM AUDIO." "") := by
  refine ⟨rfl, rfl, by decide, ?_⟩
  exact ⟨buildPrototypeHead blueprintSample prefsProtoEngine "",
    buildPrototypeTail prefsProtoEngine "NO CUSTOM AUDIO.", rfl⟩

/-- C9 (amended): the Build-phase prompt produced by the registry embeds
the baseline Three.js engine's boilerplate/import/setup instructions for
every engine identifier that is neither a key of the `ENGINE_SPECS`
table nor the name of an inherited `Object.prototype` member, and for
every identifier present in the table it embeds that engine's own
instructions; for an identifier naming an inherited prototype member the
bracket access yields the truthy built-in and its stringified text is
embedded instead (the counterexample above). -/
theorem buildPrototype_engine_table (blueprint : BlueprintCtx) (prefs : UserPreferences)
    (audioContextStr : String) (gpuRules : String) :
    (ENGINE_SPECS.find? (fun p => p.1 = prefs.gameEngine) = none →
     objProtoDisplay.find? (fun p => p.1 = prefs.gameEngine) = none →
      inSegS specThreeJS (BuildPrototype blueprint prefs audioContextStr gpuRules)) ∧
    (∀ pr, ENGINE_SPECS.find? (fun p => p.1 = prefs.gameEngine) = some pr →
      inSegS pr.2 (BuildPrototype blueprint prefs audioContextStr gpuRules)) := by
  constructor
  · intro h1 h2
    have hmiss : lookupSpec prefs.gameEngine = none := by
      unfold lookupSpec
      rw [h1, h2]
      rfl
    refine ⟨buildPrototypeHead blueprint prefs gpuRules,
      buildPrototypeTail prefs audioContextStr, ?_⟩
    unfold BuildPrototype engineSection
    rw [hmiss]
  · intro pr h1
    have hhit : lookupSpec prefs.gameEngine = some pr.2 := by
      unfold lookupSpec
      rw [h1]
    have hne : pr.2 ≠ "" := by
      have hmem := List.mem_of_find?_eq_some h1
      have hall : ∀ p ∈ ENGINE_SPECS, p.2 ≠ "" := by decide
      exact hall pr hmem
    refine ⟨buildPrototypeHead blueprint prefs gpuRules,
      buildPrototypeTail prefs audioContextStr, ?_⟩
    unfold BuildPrototype engineSection
    simp only [hhit]
    rw [if_neg hne]

/-- C9 witness: the unknown engine "Unity (Native)" — absent from the
table and from `Object.prototype` — falls back to the Three.js
instructions, and "p5.js (Creative Coding)" gets its own entry. -/
theorem buildPrototype_engine_table_witness :
    inSegS specThreeJS (BuildPrototype blueprintSample prefsUnknownEngine "NO CUSTOM AUDIO." "") ∧
    inSegS specP5JS (BuildPrototype blueprintSample prefsP5 "NO CUSTOM AUDIO." "") := by
  constructor
  · exact (buildPrototype_engine_table blueprintSample prefsUnknownEngine
      "NO CUSTOM AUDIO." "").1 rfl rfl
  · exact (buildPrototype_engine_table blueprintSample prefsP5
      "NO CUSTOM AUDIO." "").2 (keyP5JS, specP5JS) rfl

theorem twStop (p : Char → Bool) (xs : List Char) (y : Char) (rest : List Char)
    (h1 : ∀ x ∈ xs, p x = true) (h2 : p y = false) :
    (xs ++ y :: rest).takeWhile p = xs := by
  induction xs with
  | nil => simp [List.takeWhile_cons, h2]
  | cons a t ih =>
    rw [List.cons_append, List.takeWhile_cons_of_pos (h1 a (by simp)),
      ih (fun x hx => h1 x (by simp [hx]))]

theorem dwStop (p : Char → Bool) (xs : List Char) (y : Char) (rest : List Char)
    (h1 : ∀ x ∈ xs, p x = true) (h2 : p y = false) :
    (xs ++ y :: rest).dropWhile p = y :: rest := by
  induction xs with
  | nil => simp [List.dropWhile_cons, h2]
  | cons a t ih =>
    rw [List.cons_append, List.dropWhile_cons_of_pos (h1 a (by simp))]
    exact ih (fun x hx => h1 x (by simp [hx]))

theorem twAll (p : Char → Bool) (xs : List Char) (h1 : ∀ x ∈ xs, p x = true) :
    xs.takeWhile p = xs := List.takeWhile_eq_self_iff.mpr h1

theorem dwAll (p : Char → Bool) (xs : List Char) (h1 : ∀ x ∈ xs, p x = true) :
    xs.dropWhile p = [] := List.dropWhile_eq_nil_iff.mpr h1

theorem twStopOpt (p : Char → Bool) (xs z : List Char)
    (h1 : ∀ x ∈ xs, p x = true) (h2 : ∀ c, z.head? = some c → p c = false) :
    (xs ++ z).takeWhile p = xs ∧ (xs ++ z).dropWhile p = z := by
  cases z with
  | nil => rw [List.append_nil]; exact ⟨twAll p xs h1, dwAll p xs h1⟩
  | cons y zs => exact ⟨twStop p xs y zs h1 (h2 y rfl), dwStop p xs y zs h1 (h2 y rfl)⟩

theorem wsNotDigit (c : Char) (h : isWsJS c = true) : c.isDigit = false := by
  simp only [isWsJS, Bool.or_eq_true, decide_eq_true_eq] at h
  rcases h with ((((((h | h) | h) | h) | h) | h) | h) <;> subst h <;> decide

theorem wsNotDot (c : Char) (h : isWsJS c = true) : c ≠ '.' := by
  simp only [isWsJS, Bool.or_eq_true, decide_eq_true_eq] at h
  rcases h with ((((((h | h) | h) | h) | h) | h) | h) <;> subst h <;> decide

theorem dropLitHd_self (pat rest : List Char) : dropLitHd pat (pat ++ rest) = some rest := by
  unfold dropLitHd
  rw [if_pos ((leadsL_iff pat (pat ++ rest)).mpr ⟨rest, rfl⟩), List.drop_left]

theorem dropLitHd_some (pat l r : List Char) (h : dropLitHd pat l = some r) :
    l = pat ++ r := by
  unfold dropLitHd at h
  split at h
  · next hl =>
    rcases (leadsL_iff pat l).mp hl with ⟨t, rfl⟩
    rw [List.drop_left] at h
    cases h
    rfl
  · cases h

theorem numTok_shape_append (num z : List Char) (hn : NumShape num)
    (hz : ∀ c, z.head? = some c → (c.isDigit = false ∧ c ≠ '.')) :
    numTok (num ++ z) = some z := by
  rcases hn with ⟨hne, hdig⟩ | ⟨dd, ee, hnum, hene, hddig, hedig⟩
  · obtain ⟨ht, hd⟩ := twStopOpt Char.isDigit num z hdig (fun c hc => (hz c hc).1)
    unfold numTok
    rw [hd, ht]
    cases z with
    | nil =>
      simp only [List.isEmpty_iff]
      rw [if_neg hne]
    | cons y zs =>
      have hy := hz y rfl
      split
      · next r2 heq =>
        injection heq with hy' _
        exact absurd hy' hy.2
      · next heq =>
        simp only [List.isEmpty_iff]
        rw [if_neg hne]
  · subst hnum
    have hassoc : dd ++ '.' :: ee ++ z = dd ++ '.' :: (ee ++ z) := by simp
    rw [hassoc]
    obtain ⟨ht2, hd2⟩ := twStopOpt Char.isDigit ee z hedig (fun c hc => (hz c hc).1)
    have hdot : Char.isDigit '.' = false := by decide
    have ht := twStop Char.isDigit dd '.' (ee ++ z) hddig hdot
    have hd := dwStop Char.isDigit dd '.' (ee ++ z) hddig hdot
    unfold numTok
    rw [hd]
    simp only [ht2, hd2, List.isEmpty_iff]
    rw [if_neg hene]

theorem numTok_fwd (l r : List Char) (h : numTok l = some r) :
    ∃ num, l = num ++ r ∧ NumShape num := by
  have hsplit := (List.takeWhile_append_dropWhile (p := Char.isDigit) (l := l)).symm
  have htdig : ∀ x ∈ l.takeWhile Char.isDigit, x.isDigit = true :=
    fun x hx => List.mem_takeWhile_imp hx
  unfold numTok at h
  split at h
  · next r2 heq =>
    split at h
    · next hempty =>
      split at h
      · cases h
      · next hdne =>
        injection h with hr
        refine ⟨l.takeWhile Char.isDigit, ?_, Or.inl ⟨?_, htdig⟩⟩
        · rw [← hr, ← heq]; exact hsplit
        · simpa [List.isEmpty_iff] using hdne
    · next hene =>
      injection h with hr
      have hr2 := (List.takeWhile_append_dropWhile (p := Char.isDigit) (l := r2)).symm
      refine ⟨l.takeWhile Char.isDigit ++ '.' :: r2.takeWhile Char.isDigit, ?_, Or.inr
        ⟨l.takeWhile Char.isDigit, r2.takeWhile Char.isDigit, rfl, ?_, htdig,
          fun x hx => List.mem_takeWhile_imp hx⟩⟩
      · rw [← hr]
        conv_lhs => rw [hsplit, heq]
        simp only [List.append_assoc, List.cons_append, List.takeWhile_append_dropWhile]
      · simpa [List.isEmpty_iff] using hene
  · next heq =>
    split at h
    · cases h
    · next hdne =>
      injection h with hr
      refine ⟨l.takeWhile Char.isDigit, ?_, Or.inl ⟨?_, htdig⟩⟩
      · rw [← hr]; exact hsplit
      · simpa [List.isEmpty_iff] using hdne

theorem digitNotWs (c : Char) (h : c.isDigit = true) : isWsJS c = false := by
  cases hw : isWsJS c with
  | false => rfl
  | true => rw [wsNotDigit c hw] at h; cases h

theorem wsNotComma (c : Char) (h : isWsJS c = true) : c ≠ ',' := by
  simp only [isWsJS, Bool.or_eq_true, decide_eq_true_eq] at h
  rcases h with ((((((h | h) | h) | h) | h) | h) | h) <;> subst h <;> decide

theorem numShape_head (num : List Char) (hn : NumShape num) :
    ∃ c rest, num = c :: rest ∧ (c.isDigit = true ∨ c = '.') := by
  rcases hn with ⟨hne, hdig⟩ | ⟨dd, ee, hnum, hene, hddig, hedig⟩
  · cases num with
    | nil => exact absurd rfl hne
    | cons c rest => exact ⟨c, rest, rfl, Or.inl (hdig c (by simp))⟩
  · cases dd with
    | nil => exact ⟨'.', ee, by simpa using hnum, Or.inr rfl⟩
    | cons d0 dd' =>
      refine ⟨d0, dd' ++ '.' :: ee, by simpa using hnum, Or.inl (hddig d0 (by simp))⟩

theorem stripSign_of_ne (c : Char) (t : List Char) (h : c ≠ '-') :
    stripSign (c :: t) = c :: t := by
  unfold stripSign
  split
  · next t' heq => injection heq with h1 _; exact absurd h1 h
  · rfl

theorem headNotWs_of_numShape (num z : List Char) (hn : NumShape num) (c : Char)
    (hc : (num ++ z).head? = some c) : isWsJS c = false := by
  obtain ⟨c0, rest, hnum, hck⟩ := numShape_head num hn
  subst hnum
  simp only [List.cons_append, List.head?_cons, Option.some.injEq] at hc
  subst hc
  rcases hck with hd | hd
  · exact digitNotWs _ hd
  · subst hd; decide

theorem itemStep_of_shape (ws sgn num Y : List Char)
    (hws : ∀ x ∈ ws, isWsJS x = true) (hsgn : sgn = [] ∨ sgn = ['-'])
    (hn : NumShape num) :
    itemStep (ws ++ (sgn ++ (num ++ ',' :: Y))) = some Y := by
  have hnum := numTok_shape_append num (',' :: Y) hn
    (fun c hc => by
      injection hc with h1
      subst h1
      exact ⟨by decide, by decide⟩)
  obtain ⟨c0, rest, hnum0, hck⟩ := numShape_head num hn
  have hstrip : stripSign (sgn ++ (num ++ ',' :: Y)) = num ++ ',' :: Y := by
    rcases hsgn with rfl | rfl
    · simp only [List.nil_append]
      rw [hnum0, List.cons_append]
      refine stripSign_of_ne c0 _ ?_
      rcases hck with hd | hd
      · intro hcm; subst hcm; exact absurd hd (by decide)
      · subst hd; decide
    · rfl
  have hdw : (ws ++ (sgn ++ (num ++ ',' :: Y))).dropWhile isWsJS
      = sgn ++ (num ++ ',' :: Y) := by
    refine (twStopOpt isWsJS ws _ hws ?_).2
    intro c hc
    rcases hsgn with rfl | rfl
    · exact headNotWs_of_numShape num (',' :: Y) hn c (by simpa using hc)
    · simp only [List.cons_append, List.head?_cons, Option.some.injEq] at hc
      subst hc; decide
  unfold itemStep
  rw [hdw, hstrip, hnum]
  rfl

theorem itemStep_of_itemShape (w Y : List Char) (h : ItemShape w) :
    itemStep (w ++ Y) = some Y := by
  obtain ⟨ws, sgn, num, rfl, hws, hsgn, hn⟩ := h
  have := itemStep_of_shape ws sgn num Y hws hsgn hn
  simpa [List.append_assoc] using this

theorem itemStep_fwd (l r : List Char) (h : itemStep l = some r) :
    ∃ w, l = w ++ r ∧ ItemShape w := by
  unfold itemStep at h
  cases hnt : numTok (stripSign (l.dropWhile isWsJS)) with
  | none => rw [hnt] at h; cases h
  | some r0 =>
    rw [hnt] at h
    cases r0 with
    | nil => cases h
    | cons y r2 =>
      by_cases hy : y = ','
      · subst hy
        simp only at h
        injection h with hr
        subst hr
        obtain ⟨num, hsplit, hn⟩ := numTok_fwd _ _ hnt
        have hws : l = l.takeWhile isWsJS ++ l.dropWhile isWsJS :=
          (List.takeWhile_append_dropWhile (p := isWsJS) (l := l)).symm
        have hwsall : ∀ x ∈ l.takeWhile isWsJS, isWsJS x = true :=
          fun x hx => List.mem_takeWhile_imp hx
        have hstrip : (∃ t1, l.dropWhile isWsJS = '-' :: t1 ∧
            stripSign (l.dropWhile isWsJS) = t1) ∨
            stripSign (l.dropWhile isWsJS) = l.dropWhile isWsJS := by
          unfold stripSign
          split
          · next t1 heq => exact Or.inl ⟨t1, heq, rfl⟩
          · exact Or.inr rfl
        rcases hstrip with ⟨t1, hdw, hss⟩ | hss
        · refine ⟨l.takeWhile isWsJS ++ ['-'] ++ num ++ [','], ?_,
            l.takeWhile isWsJS, ['-'], num, rfl, hwsall, Or.inr rfl, hn⟩
          rw [hss] at hsplit
          conv_lhs => rw [hws, hdw, hsplit]
          simp
        · refine ⟨l.takeWhile isWsJS ++ [] ++ num ++ [','], ?_,
            l.takeWhile isWsJS, [], num, rfl, hwsall, Or.inl rfl, hn⟩
          rw [hss] at hsplit
          conv_lhs => rw [hws, hsplit]
          simp
      · have h2 : (match y :: r2 with | ',' :: r2' => some r2' | _ => none) = some r := h
        split at h2
        · next r2' heq => injection heq with h1 _; exact absurd h1 hy
        · cases h2

theorem matchComma_none (z : List Char) (hz : ∀ c, z.head? = some c → c ≠ ',') :
    (match z with | ',' :: r2 => some r2 | _ => (none : Option (List Char))) = none := by
  cases z with
  | nil => rfl
  | cons y t =>
    split
    · next r2 heq =>
      injection heq with h1 _
      exact absurd h1 (hz y rfl)
    · rfl

theorem tailStep_prep (ws sgn num ws2 Y : List Char)
    (hws : ∀ x ∈ ws, isWsJS x = true) (hsgn : sgn = [] ∨ sgn = ['-'])
    (hn : NumShape num) (hws2 : ∀ x ∈ ws2, isWsJS x = true) :
    numTok (num ++ (ws2 ++ ']' :: Y)) = some (ws2 ++ ']' :: Y) ∧
    stripSign (sgn ++ (num ++ (ws2 ++ ']' :: Y))) = num ++ (ws2 ++ ']' :: Y) ∧
    (ws ++ (sgn ++ (num ++ (ws2 ++ ']' :: Y)))).dropWhile isWsJS
      = sgn ++ (num ++ (ws2 ++ ']' :: Y)) := by
  have hnum := numTok_shape_append num (ws2 ++ ']' :: Y) hn
    (fun c hc => by
      cases ws2 with
      | nil =>
        injection hc with h1
        subst h1
        exact ⟨by decide, by decide⟩
      | cons y t =>
        injection hc with h1
        subst h1
        exact ⟨wsNotDigit _ (hws2 y (by simp)), wsNotDot _ (hws2 y (by simp))⟩)
  obtain ⟨c0, rest, hnum0, hck⟩ := numShape_head num hn
  have hstrip : stripSign (sgn ++ (num ++ (ws2 ++ ']' :: Y))) = num ++ (ws2 ++ ']' :: Y) := by
    rcases hsgn with rfl | rfl
    · simp only [List.nil_append]
      rw [hnum0, List.cons_append]
      refine stripSign_of_ne c0 _ ?_
      rcases hck with hd | hd
      · intro hcm; subst hcm; exact absurd hd (by decide)
      · subst hd; decide
    · rfl
  have hdw : (ws ++ (sgn ++ (num ++ (ws2 ++ ']' :: Y)))).dropWhile isWsJS
      = sgn ++ (num ++ (ws2 ++ ']' :: Y)) := by
    refine (twStopOpt isWsJS ws _ hws ?_).2
    intro c hc
    rcases hsgn with rfl | rfl
    · exact headNotWs_of_numShape num (ws2 ++ ']' :: Y) hn c (by simpa using hc)
    · simp only [List.cons_append, List.head?_cons, Option.some.injEq] at hc
      subst hc; decide
  exact ⟨hnum, hstrip, hdw⟩

theorem tailStep_of_shape (ws sgn num ws2 Y : List Char)
    (hws : ∀ x ∈ ws, isWsJS x = true) (hsgn : sgn = [] ∨ sgn = ['-'])
    (hn : NumShape num) (hws2 : ∀ x ∈ ws2, isWsJS x = true) :
    tailStep (ws ++ (sgn ++ (num ++ (ws2 ++ ']' :: Y)))) = some Y := by
  obtain ⟨hnum, hstrip, hdw⟩ := tailStep_prep ws sgn num ws2 Y hws hsgn hn hws2
  have hdw2 : (ws2 ++ ']' :: Y).dropWhile isWsJS = ']' :: Y :=
    dwStop isWsJS ws2 ']' Y hws2 (by decide)
  unfold tailStep
  rw [hdw, hstrip, hnum]
  simp only [hdw2]

theorem tailStep_of_tailShape (w Y : List Char) (h : TailShape w) :
    tailStep (w ++ Y) = some Y := by
  obtain ⟨ws, sgn, num, ws2, rfl, hws, hsgn, hn, hws2⟩ := h
  have := tailStep_of_shape ws sgn num ws2 Y hws hsgn hn hws2
  simpa [List.append_assoc] using this

theorem itemStep_none_of_tailShape (w Y : List Char) (h : TailShape w) :
    itemStep (w ++ Y) = none := by
  obtain ⟨ws, sgn, num, ws2, rfl, hws, hsgn, hn, hws2⟩ := h
  obtain ⟨hnum, hstrip, hdw⟩ := tailStep_prep ws sgn num ws2 Y hws hsgn hn hws2
  have hassoc : (ws ++ sgn ++ num ++ ws2 ++ [']']) ++ Y
      = ws ++ (sgn ++ (num ++ (ws2 ++ ']' :: Y))) := by simp
  rw [hassoc]
  unfold itemStep
  rw [hdw, hstrip, hnum]
  exact matchComma_none (ws2 ++ ']' :: Y) (fun c hc => by
    cases ws2 with
    | nil =>
      injection hc with h1
      subst h1
      decide
    | cons y t =>
      injection hc with h1
      subst h1
      exact wsNotComma _ (hws2 y (by simp)))

theorem itemShape_ne_nil (w : List Char) (h : ItemShape w) : w ≠ [] := by
  obtain ⟨ws, sgn, num, rfl, _, _, _⟩ := h
  simp

theorem itemStep_shrink (l r : List Char) (h : itemStep l = some r) :
    r.length < l.length := by
  obtain ⟨w, rfl, hw⟩ := itemStep_fwd l r h
  have hne := itemShape_ne_nil w hw
  have : 1 ≤ w.length := List.length_pos.mpr hne
  simp only [List.length_append]
  omega

theorem countItemsAux_none (f : Nat) (l : List Char) (h : itemStep l = none) :
    countItemsAux f l = (0, l) := by
  cases f with
  | zero => rfl
  | succ g =>
    unfold countItemsAux
    rw [h]

theorem countItems_none (l : List Char) (h : itemStep l = none) : countItems l = (0, l) :=
  countItemsAux_none l.length l h

theorem itemStep_nil : itemStep [] = none := rfl

theorem countItemsAux_fuel : ∀ n l f1 f2, l.length ≤ n → l.length ≤ f1 → l.length ≤ f2 →
    countItemsAux f1 l = countItemsAux f2 l := by
  intro n
  induction n with
  | zero =>
    intro l f1 f2 hn _ _
    have hl : l = [] := List.eq_nil_of_length_eq_zero (by omega)
    subst hl
    rw [countItemsAux_none f1 [] itemStep_nil, countItemsAux_none f2 [] itemStep_nil]
  | succ m ih =>
    intro l f1 f2 hn h1 h2
    cases hm : itemStep l with
    | none => rw [countItemsAux_none f1 l hm, countItemsAux_none f2 l hm]
    | some r =>
      have hshr := itemStep_shrink l r hm
      have hlpos : 1 ≤ l.length := by
        rcases Nat.eq_zero_or_pos l.length with h0 | h0
        · have hl : l = [] := List.eq_nil_of_length_eq_zero h0
          subst hl
          rw [itemStep_nil] at hm
          cases hm
        · exact h0
      obtain ⟨g1, rfl⟩ : ∃ g1, f1 = g1 + 1 := by
        cases f1 with
        | zero => omega
        | succ g => exact ⟨g, rfl⟩
      obtain ⟨g2, rfl⟩ : ∃ g2, f2 = g2 + 1 := by
        cases f2 with
        | zero => omega
        | succ g => exact ⟨g, rfl⟩
      unfold countItemsAux
      rw [hm]
      have := ih r g1 g2 (by omega) (by omega) (by omega)
      simp only [this]

theorem countItems_step (l r : List Char) (h : itemStep l = some r) :
    countItems l = ((countItems r).1 + 1, (countItems r).2) := by
  have hshr := itemStep_shrink l r h
  have hlne : l ≠ [] := by
    intro hl
    subst hl
    rw [itemStep_nil] at h
    cases h
  obtain ⟨m, hm⟩ : ∃ m, l.length = m + 1 := by
    cases l with
    | nil => exact absurd rfl hlne
    | cons a t => exact ⟨t.length, rfl⟩
  have e1 : countItems l = countItemsAux (m + 1) l := by
    unfold countItems
    rw [hm]
  have e2 : countItemsAux (m + 1) l = ((countItemsAux m r).1 + 1, (countItemsAux m r).2) := by
    have estep : countItemsAux (m + 1) l =
        (match itemStep l with
         | some r0 => ((countItemsAux m r0).1 + 1, (countItemsAux m r0).2)
         | none => (0, l)) := rfl
    rw [estep, h]
  have e3 : countItemsAux m r = countItems r :=
    countItemsAux_fuel r.length r m r.length (le_refl _) (by omega) (le_refl _)
  rw [e1, e2, e3]

theorem countItems_append (k : Nat) (w z : List Char) (hw : ItemsShape k w)
    (hz : itemStep z = none) : countItems (w ++ z) = (k, z) := by
  induction k generalizing w with
  | zero =>
    have hw0 : w = [] := hw
    subst hw0
    simpa using countItems_none z hz
  | succ m ih =>
    obtain ⟨w1, w2, rfl, h1, h2⟩ := hw
    have hstep : itemStep ((w1 ++ w2) ++ z) = some (w2 ++ z) := by
      rw [List.append_assoc]
      exact itemStep_of_itemShape w1 (w2 ++ z) h1
    rw [countItems_step _ _ hstep, ih w2 h2]

theorem countItems_fwd : ∀ n l, l.length ≤ n →
    ∃ w, l = w ++ (countItems l).2 ∧ ItemsShape (countItems l).1 w ∧
      itemStep (countItems l).2 = none := by
  intro n
  induction n with
  | zero =>
    intro l hl
    have h0 : l = [] := List.eq_nil_of_length_eq_zero (by omega)
    subst h0
    rw [countItems_none [] itemStep_nil]
    exact ⟨[], rfl, rfl, itemStep_nil⟩
  | succ m ih =>
    intro l hl
    cases hm : itemStep l with
    | none =>
      rw [countItems_none l hm]
      exact ⟨[], rfl, rfl, hm⟩
    | some r =>
      have hshr := itemStep_shrink l r hm
      obtain ⟨w1, hlw, hw1⟩ := itemStep_fwd l r hm
      obtain ⟨w2, hr2, hsh2, hnone⟩ := ih r (by omega)
      rw [countItems_step _ _ hm]
      refine ⟨w1 ++ w2, ?_, ⟨w1, w2, rfl, hw1, hsh2⟩, hnone⟩
      rw [List.append_assoc, ← hr2]
      exact hlw

theorem tailStep_fwd (l r : List Char) (h : tailStep l = some r) :
    ∃ w, l = w ++ r ∧ TailShape w := by
  unfold tailStep at h
  cases hnt : numTok (stripSign (l.dropWhile isWsJS)) with
  | none => rw [hnt] at h; cases h
  | some r0 =>
    rw [hnt] at h
    have h2 : (match r0.dropWhile isWsJS with
        | ']' :: r2 => some r2
        | _ => (none : Option (List Char))) = some r := h
    cases hdw : r0.dropWhile isWsJS with
    | nil => rw [hdw] at h2; exact Option.noConfusion h2
    | cons y t2 =>
      rw [hdw] at h2
      by_cases hy : y = ']'
      · subst hy
        have h3 : some t2 = some r := h2
        injection h3 with hr
        subst hr
        obtain ⟨num, hsplit, hn⟩ := numTok_fwd _ _ hnt
        have hr0 : r0 = r0.takeWhile isWsJS ++ (']' :: t2) := by
          conv_lhs => rw [← List.takeWhile_append_dropWhile (p := isWsJS) (l := r0)]
          rw [hdw]
        have hws2 : ∀ x ∈ r0.takeWhile isWsJS, isWsJS x = true :=
          fun x hx => List.mem_takeWhile_imp hx
        have hws : l = l.takeWhile isWsJS ++ l.dropWhile isWsJS :=
          (List.takeWhile_append_dropWhile (p := isWsJS) (l := l)).symm
        have hwsall : ∀ x ∈ l.takeWhile isWsJS, isWsJS x = true :=
          fun x hx => List.mem_takeWhile_imp hx
        have hstrip : (∃ t1, l.dropWhile isWsJS = '-' :: t1 ∧
            stripSign (l.dropWhile isWsJS) = t1) ∨
            stripSign (l.dropWhile isWsJS) = l.dropWhile isWsJS := by
          unfold stripSign
          split
          · next t1 heq => exact Or.inl ⟨t1, heq, rfl⟩
          · exact Or.inr rfl
        rcases hstrip with ⟨t1, hdwl, hss⟩ | hss
        · refine ⟨l.takeWhile isWsJS ++ ['-'] ++ num ++ r0.takeWhile isWsJS ++ [']'], ?_,
            l.takeWhile isWsJS, ['-'], num, r0.takeWhile isWsJS, rfl, hwsall,
            Or.inr rfl, hn, hws2⟩
          rw [hss] at hsplit
          conv_lhs => rw [hws, hdwl, hsplit, hr0]
          simp
        · refine ⟨l.takeWhile isWsJS ++ [] ++ num ++ r0.takeWhile isWsJS ++ [']'], ?_,
            l.takeWhile isWsJS, [], num, r0.takeWhile isWsJS, rfl, hwsall,
            Or.inl rfl, hn, hws2⟩
          rw [hss] at hsplit
          conv_lhs => rw [hws, hsplit, hr0]
          simp
      · split at h2
        · next r2' heq => injection heq with h1 _; exact absurd h1 hy
        · exact Option.noConfusion h2

theorem matchGeom_of_shape (k : Nat) (w tw Y : List Char) (hk : 10 ≤ k)
    (hw : ItemsShape k w) (ht : TailShape tw) :
    matchGeom ('[' :: (w ++ (tw ++ Y))) = some Y := by
  have hci : countItems (w ++ (tw ++ Y)) = (k, tw ++ Y) :=
    countItems_append k w (tw ++ Y) hw (itemStep_none_of_tailShape tw Y ht)
  have hts : tailStep (tw ++ Y) = some Y := tailStep_of_tailShape tw Y ht
  show (let p := countItems (w ++ (tw ++ Y)); if 10 ≤ p.1 then tailStep p.2 else none)
    = some Y
  rw [hci]
  simp only
  rw [if_pos hk]
  exact hts

theorem matchGeom_none_of_head (x : Char) (t : List Char) (h : x ≠ '[') :
    matchGeom (x :: t) = none := by
  unfold matchGeom
  split
  · next t' heq => injection heq with h1 _; exact absurd h1 h
  · rfl

theorem matchGeom_nil : matchGeom [] = none := rfl

theorem matchB64_nil : matchB64 [] = none := rfl

theorem matchGeom_fwd (l r : List Char) (h : matchGeom l = some r) :
    ∃ k w tw, 10 ≤ k ∧ ItemsShape k w ∧ TailShape tw ∧ l = '[' :: (w ++ (tw ++ r)) := by
  cases l with
  | nil => exact Option.noConfusion h
  | cons c t =>
    by_cases hc : c = '['
    · subst hc
      have h2 : (if 10 ≤ (countItems t).1 then tailStep (countItems t).2 else none)
          = some r := h
      by_cases h10 : 10 ≤ (countItems t).1
      · rw [if_pos h10] at h2
        obtain ⟨w, hts, hsh, _⟩ := countItems_fwd t.length t (le_refl _)
        obtain ⟨tw, htw, htsh⟩ := tailStep_fwd _ _ h2
        refine ⟨(countItems t).1, w, tw, h10, hsh, htsh, ?_⟩
        conv_lhs => rw [hts, htw]
      · rw [if_neg h10] at h2
        exact Option.noConfusion h2
    · rw [matchGeom_none_of_head c t hc] at h
      exact Option.noConfusion h

theorem matchB64_of_shape (w Y : List Char) (h : B64Shape w) :
    (matchB64 (w ++ Y)).isSome = true := by
  obtain ⟨a, b, cs, rfl, hane, ha, hbne, hb, hcne, hc⟩ := h
  have e0 : ("data:".data ++ (a ++ ("/".data ++ (b ++ (";base64,".data ++ cs))))) ++ Y
      = "data:".data ++ (a ++ ("/".data ++ (b ++ (";base64,".data ++ (cs ++ Y))))) := by
    simp
  rw [e0]
  unfold matchB64
  rw [dropLitHd_self]
  have h1 := twStopOpt isLowerAZ a ("/".data ++ (b ++ (";base64,".data ++ (cs ++ Y)))) ha
    (fun c hc2 => by injection hc2 with h1; subst h1; decide)
  simp only [h1.1, h1.2, List.isEmpty_iff]
  rw [if_neg hane, dropLitHd_self]
  have h2 := twStopOpt isLowerAZ b (";base64,".data ++ (cs ++ Y)) hb
    (fun c hc2 => by injection hc2 with h1; subst h1; decide)
  simp only [h2.1, h2.2, List.isEmpty_iff]
  rw [if_neg hbne, dropLitHd_self]
  have h3 : ((cs ++ Y).takeWhile isB64c) ≠ [] := by
    cases cs with
    | nil => exact absurd rfl hcne
    | cons c0 cs' =>
      rw [List.cons_append, List.takeWhile_cons_of_pos (hc c0 (by simp))]
      simp
  simp only [List.isEmpty_iff]
  rw [if_neg h3]
  rfl

theorem matchB64_fwd (l r : List Char) (h : matchB64 l = some r) :
    ∃ w, l = w ++ r ∧ B64Shape w := by
  unfold matchB64 at h
  split at h
  · exact Option.noConfusion h
  · next r1 hd1 =>
    have hl1 := dropLitHd_some _ _ _ hd1
    split at h
    · exact Option.noConfusion h
    · next ha =>
      split at h
      · exact Option.noConfusion h
      · next r2 hd2 =>
        have hl2 := dropLitHd_some _ _ _ hd2
        split at h
        · exact Option.noConfusion h
        · next hb =>
          split at h
          · exact Option.noConfusion h
          · next r3 hd3 =>
            split at h
            · exact Option.noConfusion h
            · next hcs =>
              injection h with hr
              refine ⟨"data:".data ++ (r1.takeWhile isLowerAZ ++ ("/".data ++
                (r2.takeWhile isLowerAZ ++ (";base64,".data ++ r3.takeWhile isB64c)))), ?_,
                r1.takeWhile isLowerAZ, r2.takeWhile isLowerAZ, r3.takeWhile isB64c, rfl,
                by simpa [List.isEmpty_iff] using ha,
                fun x hx => List.mem_takeWhile_imp hx,
                by simpa [List.isEmpty_iff] using hb,
                fun x hx => List.mem_takeWhile_imp hx,
                by simpa [List.isEmpty_iff] using hcs,
                fun x hx => List.mem_takeWhile_imp hx⟩
              have hl3 := dropLitHd_some _ _ _ hd3
              have e1 : r1 = r1.takeWhile isLowerAZ ++ ("/".data ++ r2) := by
                conv_lhs =>
                  rw [← List.takeWhile_append_dropWhile (p := isLowerAZ) (l := r1)]
                rw [hl2]
              have e2 : r2 = r2.takeWhile isLowerAZ ++ (";base64,".data ++ r3) := by
                conv_lhs =>
                  rw [← List.takeWhile_append_dropWhile (p := isLowerAZ) (l := r2)]
                rw [hl3]
              have e3 : r3 = r3.takeWhile isB64c ++ r := by
                conv_lhs =>
                  rw [← List.takeWhile_append_dropWhile (p := isB64c) (l := r3)]
                rw [hr]
              rw [hl1]
              simp only [List.append_assoc]
              conv_rhs => rw [← e3, ← e2, ← e1]

theorem b64Shape_ne_nil (w : List Char) (h : B64Shape w) : w ≠ [] := by
  obtain ⟨a, b, cs, rfl, _⟩ := h
  simp

theorem matchB64_shrink (l r : List Char) (h : matchB64 l = some r) :
    r.length < l.length := by
  obtain ⟨w, rfl, hw⟩ := matchB64_fwd l r h
  have : 1 ≤ w.length := List.length_pos.mpr (b64Shape_ne_nil w hw)
  simp only [List.length_append]
  omega

theorem matchGeom_shrink (l r : List Char) (h : matchGeom l = some r) :
    r.length < l.length := by
  obtain ⟨k, w, tw, _, _, _, rfl⟩ := matchGeom_fwd l r h
  simp only [List.length_cons, List.length_append]
  omega

theorem b64Shape_head (w : List Char) (h : B64Shape w) : ∃ t, w = 'd' :: t := by
  obtain ⟨a, b, cs, rfl, _⟩ := h
  exact ⟨_, rfl⟩

theorem lowerB64any (c : Char) (h : isLowerAZ c = true) : isB64any c = true := by
  have h2 : ('a' ≤ c && c ≤ 'z') = true := h
  simp only [isB64any, isB64c, Bool.or_eq_true]
  exact Or.inl (Or.inl (Or.inl (Or.inl (Or.inl (Or.inl (Or.inl (Or.inr h2)))))))

theorem b64cB64any (c : Char) (h : isB64c c = true) : isB64any c = true := by
  simp [isB64any, h]

theorem b64Shape_chars (w : List Char) (h : B64Shape w) : ∀ x ∈ w, isB64any x = true := by
  obtain ⟨a, b, cs, rfl, hane, ha, hbne, hb, hcne, hc⟩ := h
  intro x hx
  simp only [List.mem_append] at hx
  rcases hx with hx | hx | hx | hx | hx | hx
  · exact (by decide : ∀ x ∈ "data:".data, isB64any x = true) x hx
  · exact lowerB64any x (ha x hx)
  · exact (by decide : ∀ x ∈ "/".data, isB64any x = true) x hx
  · exact lowerB64any x (hb x hx)
  · exact (by decide : ∀ x ∈ ";base64,".data, isB64any x = true) x hx
  · exact b64cB64any x (hc x hx)

theorem b64any_ne_lb (c : Char) (h : isB64any c = true) : c ≠ '[' := by
  intro hc
  subst hc
  exact absurd h (by decide)

theorem b64any_ne_lt (c : Char) (h : isB64any c = true) : c ≠ '<' := by
  intro hc
  subst hc
  exact absurd h (by decide)

theorem matchB64_none_of_head (x : Char) (t : List Char) (h : x ≠ 'd') :
    matchB64 (x :: t) = none := by
  have hlead : leadsL "data:".data (x :: t) = false := by
    show leadsL ('d' :: "ata:".data) (x :: t) = false
    simp [leadsL, Ne.symm h]
  have hd : dropLitHd "data:".data (x :: t) = none := by
    unfold dropLitHd
    rw [hlead]
    rfl
  unfold matchB64
  rw [hd]

theorem wsNotLb (c : Char) (h : isWsJS c = true) : c ≠ '[' := by
  simp only [isWsJS, Bool.or_eq_true, decide_eq_true_eq] at h
  rcases h with ((((((h | h) | h) | h) | h) | h) | h) <;> subst h <;> decide

theorem digitNotLb (c : Char) (h : c.isDigit = true) : c ≠ '[' := by
  intro hc
  subst hc
  exact absurd h (by decide)

theorem numShape_no_lb (num : List Char) (h : NumShape num) : ∀ x ∈ num, x ≠ '[' := by
  intro x hx
  rcases h with ⟨hne, hdig⟩ | ⟨dd, ee, rfl, hene, hddig, hedig⟩
  · exact digitNotLb x (hdig x hx)
  · simp only [List.mem_append, List.mem_cons] at hx
    rcases hx with hx | hx | hx
    · exact digitNotLb x (hddig x hx)
    · subst hx; decide
    · exact digitNotLb x (hedig x hx)

theorem itemShape_no_lb (w : List Char) (h : ItemShape w) : ∀ x ∈ w, x ≠ '[' := by
  obtain ⟨ws, sgn, num, rfl, hws, hsgn, hn⟩ := h
  intro x hx
  simp only [List.mem_append, List.mem_cons] at hx
  rcases hx with ((hx | hx) | hx) | hx
  · exact wsNotLb x (hws x hx)
  · rcases hsgn with rfl | rfl
    · cases hx
    · simp only [List.mem_singleton] at hx
      subst hx; decide
  · exact numShape_no_lb num hn x hx
  · rcases hx with rfl | h0
    · decide
    · cases h0

theorem itemsShape_no_lb (k : Nat) (w : List Char) (h : ItemsShape k w) :
    ∀ x ∈ w, x ≠ '[' := by
  induction k generalizing w with
  | zero =>
    have h0 : w = [] := h
    subst h0
    intro x hx
    cases hx
  | succ m ih =>
    obtain ⟨w1, w2, rfl, h1, h2⟩ := h
    intro x hx
    rcases List.mem_append.mp hx with hx | hx
    · exact itemShape_no_lb w1 h1 x hx
    · exact ih w2 h2 x hx

theorem tailShape_no_lb (w : List Char) (h : TailShape w) : ∀ x ∈ w, x ≠ '[' := by
  obtain ⟨ws, sgn, num, ws2, rfl, hws, hsgn, hn, hws2⟩ := h
  intro x hx
  simp only [List.mem_append, List.mem_cons] at hx
  rcases hx with (((hx | hx) | hx) | hx) | hx
  · exact wsNotLb x (hws x hx)
  · rcases hsgn with rfl | rfl
    · cases hx
    · simp only [List.mem_singleton] at hx
      subst hx; decide
  · exact numShape_no_lb num hn x hx
  · exact wsNotLb x (hws2 x hx)
  · rcases hx with rfl | h0
    · decide
    · cases h0

theorem scanB64Aux_fuel : ∀ n l f1 f2, List.length l ≤ n → List.length l ≤ f1 →
    List.length l ≤ f2 → scanB64Aux f1 l = scanB64Aux f2 l := by
  intro n
  induction n with
  | zero =>
    intro l f1 f2 hn _ _
    have h0 : l = [] := List.length_eq_zero.mp (Nat.le_zero.mp hn)
    subst h0
    cases f1 <;> cases f2 <;> rfl
  | succ m ih =>
    intro l f1 f2 hn h1 h2
    cases l with
    | nil => cases f1 <;> cases f2 <;> rfl
    | cons c t =>
      simp only [List.length_cons] at hn h1 h2
      cases f1 with
      | zero => omega
      | succ g1 =>
        cases f2 with
        | zero => omega
        | succ g2 =>
          cases hm : matchB64 (c :: t) with
          | some r =>
            have hshr := matchB64_shrink _ _ hm
            simp only [List.length_cons] at hshr
            have e1 : scanB64Aux (g1 + 1) (c :: t) =
                (match matchB64 (c :: t) with
                 | some r0 => pb64.data ++ scanB64Aux g1 r0
                 | none => c :: scanB64Aux g1 t) := rfl
            have e2 : scanB64Aux (g2 + 1) (c :: t) =
                (match matchB64 (c :: t) with
                 | some r0 => pb64.data ++ scanB64Aux g2 r0
                 | none => c :: scanB64Aux g2 t) := rfl
            rw [e1, e2, hm]
            show pb64.data ++ scanB64Aux g1 r = pb64.data ++ scanB64Aux g2 r
            rw [ih r g1 g2 (by omega) (by omega) (by omega)]
          | none =>
            have e1 : scanB64Aux (g1 + 1) (c :: t) =
                (match matchB64 (c :: t) with
                 | some r0 => pb64.data ++ scanB64Aux g1 r0
                 | none => c :: scanB64Aux g1 t) := rfl
            have e2 : scanB64Aux (g2 + 1) (c :: t) =
                (match matchB64 (c :: t) with
                 | some r0 => pb64.data ++ scanB64Aux g2 r0
                 | none => c :: scanB64Aux g2 t) := rfl
            rw [e1, e2, hm]
            show c :: scanB64Aux g1 t = c :: scanB64Aux g2 t
            rw [ih t g1 g2 (by omega) (by omega) (by omega)]

theorem scanB64Aux_eq (f : Nat) (l : List Char) (h : List.length l ≤ f) :
    scanB64Aux f l = scanB64 l :=
  scanB64Aux_fuel (List.length l) l f (List.length l) (Nat.le_refl _) h (Nat.le_refl _)

theorem scanB64_nil : scanB64 [] = [] := rfl

theorem scanB64_cons_match (c : Char) (t r : List Char) (hm : matchB64 (c :: t) = some r) :
    scanB64 (c :: t) = pb64.data ++ scanB64 r := by
  have hshr := matchB64_shrink _ _ hm
  simp only [List.length_cons] at hshr
  have e1 : scanB64 (c :: t) = scanB64Aux (t.length + 1) (c :: t) := rfl
  have e2 : scanB64Aux (t.length + 1) (c :: t) =
      (match matchB64 (c :: t) with
       | some r0 => pb64.data ++ scanB64Aux t.length r0
       | none => c :: scanB64Aux t.length t) := rfl
  rw [e1, e2, hm]
  show pb64.data ++ scanB64Aux t.length r = pb64.data ++ scanB64 r
  rw [scanB64Aux_eq t.length r (by omega)]

theorem scanB64_cons_none (c : Char) (t : List Char) (hm : matchB64 (c :: t) = none) :
    scanB64 (c :: t) = c :: scanB64 t := by
  have e1 : scanB64 (c :: t) = scanB64Aux (t.length + 1) (c :: t) := rfl
  have e2 : scanB64Aux (t.length + 1) (c :: t) =
      (match matchB64 (c :: t) with
       | some r0 => pb64.data ++ scanB64Aux t.length r0
       | none => c :: scanB64Aux t.length t) := rfl
  rw [e1, e2, hm]
  show c :: scanB64Aux t.length t = c :: scanB64 t
  rfl

theorem scanGeomAux_fuel : ∀ n l f1 f2, List.length l ≤ n → List.length l ≤ f1 →
    List.length l ≤ f2 → scanGeomAux f1 l = scanGeomAux f2 l := by
  intro n
  induction n with
  | zero =>
    intro l f1 f2 hn _ _
    have h0 : l = [] := List.length_eq_zero.mp (Nat.le_zero.mp hn)
    subst h0
    cases f1 <;> cases f2 <;> rfl
  | succ m ih =>
    intro l f1 f2 hn h1 h2
    cases l with
    | nil => cases f1 <;> cases f2 <;> rfl
    | cons c t =>
      simp only [List.length_cons] at hn h1 h2
      cases f1 with
      | zero => omega
      | succ g1 =>
        cases f2 with
        | zero => omega
        | succ g2 =>
          cases hm : matchGeom (c :: t) with
          | some r =>
            have hshr := matchGeom_shrink _ _ hm
            simp only [List.length_cons] at hshr
            have e1 : scanGeomAux (g1 + 1) (c :: t) =
                (match matchGeom (c :: t) with
                 | some r0 => pgeom.data ++ scanGeomAux g1 r0
                 | none => c :: scanGeomAux g1 t) := rfl
            have e2 : scanGeomAux (g2 + 1) (c :: t) =
                (match matchGeom (c :: t) with
                 | some r0 => pgeom.data ++ scanGeomAux g2 r0
                 | none => c :: scanGeomAux g2 t) := rfl
            rw [e1, e2, hm]
            show pgeom.data ++ scanGeomAux g1 r = pgeom.data ++ scanGeomAux g2 r
            rw [ih r g1 g2 (by omega) (by omega) (by omega)]
          | none =>
            have e1 : scanGeomAux (g1 + 1) (c :: t) =
                (match matchGeom (c :: t) with
                 | some r0 => pgeom.data ++ scanGeomAux g1 r0
                 | none => c :: scanGeomAux g1 t) := rfl
            have e2 : scanGeomAux (g2 + 1) (c :: t) =
                (match matchGeom (c :: t) with
                 | some r0 => pgeom.data ++ scanGeomAux g2 r0
                 | none => c :: scanGeomAux g2 t) := rfl
            rw [e1, e2, hm]
            show c :: scanGeomAux g1 t = c :: scanGeomAux g2 t
            rw [ih t g1 g2 (by omega) (by omega) (by omega)]

theorem scanGeomAux_eq (f : Nat) (l : List Char) (h : List.length l ≤ f) :
    scanGeomAux f l = scanGeom l :=
  scanGeomAux_fuel (List.length l) l f (List.length l) (Nat.le_refl _) h (Nat.le_refl _)

theorem scanGeom_nil : scanGeom [] = [] := rfl

theorem scanGeom_cons_match (c : Char) (t r : List Char) (hm : matchGeom (c :: t) = some r) :
    scanGeom (c :: t) = pgeom.data ++ scanGeom r := by
  have hshr := matchGeom_shrink _ _ hm
  simp only [List.length_cons] at hshr
  have e1 : scanGeom (c :: t) = scanGeomAux (t.length + 1) (c :: t) := rfl
  have e2 : scanGeomAux (t.length + 1) (c :: t) =
      (match matchGeom (c :: t) with
       | some r0 => pgeom.data ++ scanGeomAux t.length r0
       | none => c :: scanGeomAux t.length t) := rfl
  rw [e1, e2, hm]
  show pgeom.data ++ scanGeomAux t.length r = pgeom.data ++ scanGeom r
  rw [scanGeomAux_eq t.length r (by omega)]

theorem scanGeom_cons_none (c : Char) (t : List Char) (hm : matchGeom (c :: t) = none) :
    scanGeom (c :: t) = c :: scanGeom t := by
  have e1 : scanGeom (c :: t) = scanGeomAux (t.length + 1) (c :: t) := rfl
  have e2 : scanGeomAux (t.length + 1) (c :: t) =
      (match matchGeom (c :: t) with
       | some r0 => pgeom.data ++ scanGeomAux t.length r0
       | none => c :: scanGeomAux t.length t) := rfl
  rw [e1, e2, hm]
  show c :: scanGeomAux t.length t = c :: scanGeom t
  rfl

theorem drop_app (u : List Char) : ∀ (v : List Char) (j : Nat),
    (u ++ v).drop (u.length + j) = v.drop j := by
  induction u with
  | nil => intro v j; simp
  | cons a u ih =>
    intro v j
    simp only [List.cons_append, List.length_cons]
    have harith : u.length + 1 + j = (u.length + j) + 1 := by omega
    rw [harith, List.drop_succ_cons, ih]

theorem cleanB64_tail (c : Char) (t : List Char) (h : cleanB64 (c :: t)) : cleanB64 t := by
  intro i
  have h2 := h (i + 1)
  rwa [List.drop_succ_cons] at h2

theorem cleanGeom_tail (c : Char) (t : List Char) (h : cleanGeom (c :: t)) : cleanGeom t := by
  intro i
  have h2 := h (i + 1)
  rwa [List.drop_succ_cons] at h2

theorem cleanB64_suffix (l r u : List Char) (h : cleanB64 l) (hu : l = u ++ r) :
    cleanB64 r := by
  intro i
  have h2 := h (u.length + i)
  rw [hu, drop_app] at h2
  exact h2

theorem itemStep_pg (X : List Char) : itemStep ('.' :: '.' :: X) = none := rfl

theorem matchGeom_pg (X : List Char) : matchGeom (pgeom.data ++ X) = none := by
  have hpg : pgeom.data ++ X
      = '[' :: ('.' :: '.' :: (".GEOMETRY_DATA_HIDDEN...]".data ++ X)) := rfl
  rw [hpg]
  show (let p := countItems ('.' :: '.' :: (".GEOMETRY_DATA_HIDDEN...]".data ++ X));
    if 10 ≤ p.1 then tailStep p.2 else none) = none
  rw [countItems_none _ (itemStep_pg _)]
  rfl

theorem cleanB64_pb64_append (X : List Char) (hX : cleanB64 X) :
    cleanB64 (pb64.data ++ X) := by
  intro i
  by_cases h20 : 20 ≤ i
  · obtain ⟨j, rfl⟩ : ∃ j, i = pb64.data.length + j :=
      ⟨i - 20, by rw [show pb64.data.length = 20 from rfl]; omega⟩
    rw [drop_app]
    exact hX j
  · have hpb : pb64.data = '<' :: 'B' :: 'A' :: 'S' :: 'E' :: '6' :: '4' :: '_' :: 'D' ::
        'A' :: 'T' :: 'A' :: '_' :: 'H' :: 'I' :: 'D' :: 'D' :: 'E' :: 'N' :: '>' :: [] := rfl
    rw [hpb]
    simp only [List.cons_append, List.nil_append]
    interval_cases i <;> exact matchB64_none_of_head _ _ (by decide)

theorem cleanB64_pgeom_append (X : List Char) (hX : cleanB64 X) :
    cleanB64 (pgeom.data ++ X) := by
  intro i
  by_cases h28 : 28 ≤ i
  · obtain ⟨j, rfl⟩ : ∃ j, i = pgeom.data.length + j :=
      ⟨i - 28, by rw [show pgeom.data.length = 28 from rfl]; omega⟩
    rw [drop_app]
    exact hX j
  · have hpg : pgeom.data = '[' :: '.' :: '.' :: '.' :: 'G' :: 'E' :: 'O' :: 'M' :: 'E' ::
        'T' :: 'R' :: 'Y' :: '_' :: 'D' :: 'A' :: 'T' :: 'A' :: '_' :: 'H' :: 'I' :: 'D' ::
        'D' :: 'E' :: 'N' :: '.' :: '.' :: '.' :: ']' :: [] := rfl
    rw [hpg]
    simp only [List.cons_append, List.nil_append]
    interval_cases i <;> exact matchB64_none_of_head _ _ (by decide)

theorem cleanGeom_pgeom_append (X : List Char) (hX : cleanGeom X) :
    cleanGeom (pgeom.data ++ X) := by
  intro i
  by_cases h28 : 28 ≤ i
  · obtain ⟨j, rfl⟩ : ∃ j, i = pgeom.data.length + j :=
      ⟨i - 28, by rw [show pgeom.data.length = 28 from rfl]; omega⟩
    rw [drop_app]
    exact hX j
  · cases i with
    | zero => exact matchGeom_pg X
    | succ j =>
      have hj : j < 27 := by omega
      have hpg : pgeom.data = '[' :: '.' :: '.' :: '.' :: 'G' :: 'E' :: 'O' :: 'M' :: 'E' ::
          'T' :: 'R' :: 'Y' :: '_' :: 'D' :: 'A' :: 'T' :: 'A' :: '_' :: 'H' :: 'I' :: 'D' ::
          'D' :: 'E' :: 'N' :: '.' :: '.' :: '.' :: ']' :: [] := rfl
      rw [hpg]
      simp only [List.cons_append, List.nil_append]
      interval_cases j <;> exact matchGeom_none_of_head _ _ (by decide)

theorem ptB64 : ∀ n t w1, List.length t ≤ n → (∀ x ∈ w1, isB64any x = true) →
    (∃ v, scanB64 t = w1 ++ v) → ∃ u, t = w1 ++ u := by
  intro n
  induction n with
  | zero =>
    intro t w1 hn _ hv
    have h0 : t = [] := List.length_eq_zero.mp (Nat.le_zero.mp hn)
    subst h0
    obtain ⟨v, hv⟩ := hv
    rw [scanB64_nil] at hv
    cases w1 with
    | nil => exact ⟨[], rfl⟩
    | cons a w2 => exact absurd hv (by simp)
  | succ m ih =>
    intro t w1 hn hch hv
    cases w1 with
    | nil => exact ⟨t, rfl⟩
    | cons a w2 =>
      cases t with
      | nil =>
        obtain ⟨v, hv⟩ := hv
        rw [scanB64_nil] at hv
        exact absurd hv (by simp)
      | cons c t2 =>
        simp only [List.length_cons] at hn
        obtain ⟨v, hv⟩ := hv
        cases hm : matchB64 (c :: t2) with
        | some r =>
          rw [scanB64_cons_match c t2 r hm] at hv
          have hpb : pb64.data = '<' :: "BASE64_DATA_HIDDEN>".data := rfl
          rw [hpb] at hv
          simp only [List.cons_append] at hv
          injection hv with h1 _
          exact absurd h1.symm (b64any_ne_lt a (hch a (List.mem_cons_self a w2)))
        | none =>
          rw [scanB64_cons_none c t2 hm] at hv
          simp only [List.cons_append] at hv
          injection hv with h1 h2
          obtain ⟨u, hu⟩ := ih t2 w2 (by omega)
            (fun x hx => hch x (List.mem_cons_of_mem a hx)) ⟨v, h2⟩
          exact ⟨u, by rw [List.cons_append, ← hu, h1]⟩

theorem ptGeom : ∀ n t w1, List.length t ≤ n → (∀ x ∈ w1, x ≠ '[') →
    (∃ v, scanGeom t = w1 ++ v) → ∃ u, t = w1 ++ u := by
  intro n
  induction n with
  | zero =>
    intro t w1 hn _ hv
    have h0 : t = [] := List.length_eq_zero.mp (Nat.le_zero.mp hn)
    subst h0
    obtain ⟨v, hv⟩ := hv
    rw [scanGeom_nil] at hv
    cases w1 with
    | nil => exact ⟨[], rfl⟩
    | cons a w2 => exact absurd hv (by simp)
  | succ m ih =>
    intro t w1 hn hch hv
    cases w1 with
    | nil => exact ⟨t, rfl⟩
    | cons a w2 =>
      cases t with
      | nil =>
        obtain ⟨v, hv⟩ := hv
        rw [scanGeom_nil] at hv
        exact absurd hv (by simp)
      | cons c t2 =>
        simp only [List.length_cons] at hn
        obtain ⟨v, hv⟩ := hv
        cases hm : matchGeom (c :: t2) with
        | some r =>
          rw [scanGeom_cons_match c t2 r hm] at hv
          have hpg : pgeom.data = '[' :: "...GEOMETRY_DATA_HIDDEN...]".data := rfl
          rw [hpg] at hv
          simp only [List.cons_append] at hv
          injection hv with h1 _
          exact absurd h1.symm (hch a (List.mem_cons_self a w2))
        | none =>
          rw [scanGeom_cons_none c t2 hm] at hv
          simp only [List.cons_append] at hv
          injection hv with h1 h2
          obtain ⟨u, hu⟩ := ih t2 w2 (by omega)
            (fun x hx => hch x (List.mem_cons_of_mem a hx)) ⟨v, h2⟩
          exact ⟨u, by rw [List.cons_append, ← hu, h1]⟩

theorem cleanB64_scanB64_aux : ∀ n l, List.length l ≤ n → cleanB64 (scanB64 l) := by
  intro n
  induction n with
  | zero =>
    intro l hn
    have h0 : l = [] := List.length_eq_zero.mp (Nat.le_zero.mp hn)
    subst h0
    intro i
    rw [scanB64_nil, List.drop_nil]
    exact matchB64_nil
  | succ m ih =>
    intro l hn
    cases l with
    | nil =>
      intro i
      rw [scanB64_nil, List.drop_nil]
      exact matchB64_nil
    | cons c t =>
      simp only [List.length_cons] at hn
      cases hm : matchB64 (c :: t) with
      | some r =>
        rw [scanB64_cons_match c t r hm]
        have hshr := matchB64_shrink _ _ hm
        simp only [List.length_cons] at hshr
        exact cleanB64_pb64_append (scanB64 r) (ih r (by omega))
      | none =>
        rw [scanB64_cons_none c t hm]
        intro i
        cases i with
        | succ j =>
          rw [List.drop_succ_cons]
          exact ih t (by omega) j
        | zero =>
          rw [List.drop_zero]
          cases hm2 : matchB64 (c :: scanB64 t) with
          | none => rfl
          | some r2 =>
            obtain ⟨w, hw, hsh⟩ := matchB64_fwd _ _ hm2
            obtain ⟨w1, rfl⟩ := b64Shape_head w hsh
            simp only [List.cons_append] at hw
            injection hw with h1 h2
            have hch := b64Shape_chars _ hsh
            obtain ⟨u, hu⟩ := ptB64 t.length t w1 (Nat.le_refl _)
              (fun x hx => hch x (List.mem_cons_of_mem 'd' hx)) ⟨r2, h2⟩
            have hsame : (matchB64 (('d' :: w1) ++ u)).isSome = true :=
              matchB64_of_shape ('d' :: w1) u hsh
            rw [List.cons_append, ← hu, ← h1, hm] at hsame
            exact absurd hsame (by decide)

theorem cleanGeom_scanGeom_aux : ∀ n l, List.length l ≤ n → cleanGeom (scanGeom l) := by
  intro n
  induction n with
  | zero =>
    intro l hn
    have h0 : l = [] := List.length_eq_zero.mp (Nat.le_zero.mp hn)
    subst h0
    intro i
    rw [scanGeom_nil, List.drop_nil]
    exact matchGeom_nil
  | succ m ih =>
    intro l hn
    cases l with
    | nil =>
      intro i
      rw [scanGeom_nil, List.drop_nil]
      exact matchGeom_nil
    | cons c t =>
      simp only [List.length_cons] at hn
      cases hm : matchGeom (c :: t) with
      | some r =>
        rw [scanGeom_cons_match c t r hm]
        have hshr := matchGeom_shrink _ _ hm
        simp only [List.length_cons] at hshr
        exact cleanGeom_pgeom_append (scanGeom r) (ih r (by omega))
      | none =>
        rw [scanGeom_cons_none c t hm]
        intro i
        cases i with
        | succ j =>
          rw [List.drop_succ_cons]
          exact ih t (by omega) j
        | zero =>
          rw [List.drop_zero]
          cases hm2 : matchGeom (c :: scanGeom t) with
          | none => rfl
          | some r2 =>
            obtain ⟨k, w, tw, hk, hws, hts, hdec⟩ := matchGeom_fwd _ _ hm2
            injection hdec with h1 h2
            have chars : ∀ x ∈ w ++ tw, x ≠ '[' := by
              intro x hx
              rcases List.mem_append.mp hx with hx | hx
              · exact itemsShape_no_lb k w hws x hx
              · exact tailShape_no_lb tw hts x hx
            have h2' : scanGeom t = (w ++ tw) ++ r2 := by
              rw [h2, List.append_assoc]
            obtain ⟨u, hu⟩ := ptGeom t.length t (w ++ tw) (Nat.le_refl _) chars ⟨r2, h2'⟩
            have hsome : matchGeom ('[' :: (w ++ (tw ++ u))) = some u :=
              matchGeom_of_shape k w tw u hk hws hts
            have hct : c :: t = '[' :: (w ++ (tw ++ u)) := by
              rw [h1, hu, List.append_assoc]
            rw [← hct, hm] at hsome
            exact absurd hsome (by simp)

theorem cleanB64_scanGeom_aux : ∀ n l, List.length l ≤ n → cleanB64 l →
    cleanB64 (scanGeom l) := by
  intro n
  induction n with
  | zero =>
    intro l hn _
    have h0 : l = [] := List.length_eq_zero.mp (Nat.le_zero.mp hn)
    subst h0
    intro i
    rw [scanGeom_nil, List.drop_nil]
    exact matchB64_nil
  | succ m ih =>
    intro l hn hcln
    cases l with
    | nil =>
      intro i
      rw [scanGeom_nil, List.drop_nil]
      exact matchB64_nil
    | cons c t =>
      simp only [List.length_cons] at hn
      cases hm : matchGeom (c :: t) with
      | some r =>
        rw [scanGeom_cons_match c t r hm]
        have hshr := matchGeom_shrink _ _ hm
        simp only [List.length_cons] at hshr
        have hsuf : cleanB64 r := by
          obtain ⟨k, w, tw, hk, hws, hts, hdec⟩ := matchGeom_fwd _ _ hm
          refine cleanB64_suffix (c :: t) r ('[' :: (w ++ tw)) hcln ?_
          rw [hdec]
          simp [List.append_assoc]
        exact cleanB64_pgeom_append (scanGeom r) (ih r (by omega) hsuf)
      | none =>
        rw [scanGeom_cons_none c t hm]
        intro i
        cases i with
        | succ j =>
          rw [List.drop_succ_cons]
          exact ih t (by omega) (cleanB64_tail c t hcln) j
        | zero =>
          rw [List.drop_zero]
          cases hm2 : matchB64 (c :: scanGeom t) with
          | none => rfl
          | some r2 =>
            obtain ⟨w, hw, hsh⟩ := matchB64_fwd _ _ hm2
            obtain ⟨w1, rfl⟩ := b64Shape_head w hsh
            simp only [List.cons_append] at hw
            injection hw with h1 h2
            have hch := b64Shape_chars _ hsh
            obtain ⟨u, hu⟩ := ptGeom t.length t w1 (Nat.le_refl _)
              (fun x hx => b64any_ne_lb x (hch x (List.mem_cons_of_mem 'd' hx))) ⟨r2, h2⟩
            have h00 : matchB64 (c :: t) = none := hcln 0
            have hsame : (matchB64 (('d' :: w1) ++ u)).isSome = true :=
              matchB64_of_shape ('d' :: w1) u hsh
            rw [List.cons_append, ← hu, ← h1, h00] at hsame
            exact absurd hsame (by decide)

theorem scanB64_id_aux : ∀ n l, List.length l ≤ n → cleanB64 l → scanB64 l = l := by
  intro n
  induction n with
  | zero =>
    intro l hn _
    have h0 : l = [] := List.length_eq_zero.mp (Nat.le_zero.mp hn)
    subst h0
    rfl
  | succ m ih =>
    intro l hn hcl
    cases l with
    | nil => rfl
    | cons c t =>
      simp only [List.length_cons] at hn
      have h0 : matchB64 (c :: t) = none := hcl 0
      rw [scanB64_cons_none c t h0, ih t (by omega) (cleanB64_tail c t hcl)]

theorem scanGeom_id_aux : ∀ n l, List.length l ≤ n → cleanGeom l → scanGeom l = l := by
  intro n
  induction n with
  | zero =>
    intro l hn _
    have h0 : l = [] := List.length_eq_zero.mp (Nat.le_zero.mp hn)
    subst h0
    rfl
  | succ m ih =>
    intro l hn hcl
    cases l with
    | nil => rfl
    | cons c t =>
      simp only [List.length_cons] at hn
      have h0 : matchGeom (c :: t) = none := hcl 0
      rw [scanGeom_cons_none c t h0, ih t (by omega) (cleanGeom_tail c t hcl)]

/-- C8: `compressCodeForContext` is idempotent — compressing an already
compressed text changes nothing, because the placeholder texts substituted
for base64 data URIs and for heavy numeric array literals can take part in
no further match of either pattern. -/
theorem compress_idem (s : String) :
    compressCodeForContext (compressCodeForContext s) = compressCodeForContext s := by
  by_cases hs : s = ""
  · subst hs
    rfl
  · have houter : compressCodeForContext s = String.mk (scanGeom (scanB64 s.data)) := by
      unfold compressCodeForContext
      rw [if_neg hs]
    rw [houter]
    unfold compressCodeForContext
    by_cases ho : String.mk (scanGeom (scanB64 s.data)) = ""
    · rw [if_pos ho]
      exact ho.symm
    · rw [if_neg ho]
      have hB : cleanB64 (scanGeom (scanB64 s.data)) :=
        cleanB64_scanGeom_aux (scanB64 s.data).length (scanB64 s.data) (Nat.le_refl _)
          (cleanB64_scanB64_aux (s.data).length s.data (Nat.le_refl _))
      have hG : cleanGeom (scanGeom (scanB64 s.data)) :=
        cleanGeom_scanGeom_aux (scanB64 s.data).length (scanB64 s.data) (Nat.le_refl _)
      have hdata : (String.mk (scanGeom (scanB64 s.data))).data
          = scanGeom (scanB64 s.data) := rfl
      rw [hdata, scanB64_id_aux _ _ (Nat.le_refl _) hB, scanGeom_id_aux _ _ (Nat.le_refl _) hG]
